import Mathlib

/-!
Verification of the team-plus data-transformation core: the generic
search/filter/pagination engine (`useSearch`, `useFilter`, `useListingView`,
`useMemberFilters`), the statistics aggregation (`calculateStatistics`),
and the application reducer (`appReducer`).

JavaScript objects used as keyed records (`Record<Id, V>`) are modelled as
association lists that preserve key insertion order, the order
`Object.values` enumerates.  Spread-update `{...r, [k]: v}` replaces the
first occurrence of `k` in place (JS keeps the original key position) and
appends a fresh key at the end; rest-destructuring `{[k]: _, ...rest}`
drops the key.  JS `Set` is modelled as a duplicate-free list in insertion
order.  JS numbers are modelled as `ℚ` where division occurs and as `Nat`
where the source only counts.
-/

namespace TeamPlus

/-- JS `r[k]`: first value stored under key `k`, if any. -/
def rlookup {α : Type} (r : List (String × α)) (k : String) : Option α :=
  (r.find? (fun p => p.1 == k)).map (·.2)

/-- JS `{...r, [k]: v}`: update the first binding of `k` in place, else append. -/
def rinsert {α : Type} : List (String × α) → String → α → List (String × α)
  | [], k, v => [(k, v)]
  | (k', v') :: rest, k, v =>
    if k' == k then (k, v) :: rest else (k', v') :: rinsert rest k v

/-- JS `const {[k]: _, ...rest} = r`: drop key `k`. -/
def rerase {α : Type} (r : List (String × α)) (k : String) : List (String × α) :=
  r.filter (fun p => !(p.1 == k))

/-- JS `Object.values(r)` in key insertion order. -/
def rvalues {α : Type} (r : List (String × α)) : List α :=
  r.map (·.2)

/-- JS `Object.keys(r).length`. -/
def rsize {α : Type} (r : List (String × α)) : Nat :=
  r.length

/-- JS `Set.add`: append the element if it is not present yet. -/
def sinsert (s : List String) (x : String) : List String :=
  if x ∈ s then s else s ++ [x]

/-- JS `hay.includes(needle)` on character lists. -/
def containsSub (hay needle : List Char) : Bool :=
  hay.tails.any (fun t => needle.isPrefixOf t)

/-- JS `String.prototype.includes`. -/
def strContains (hay needle : String) : Bool :=
  containsSub hay.data needle.data

/-- JS `String.prototype.toLowerCase` (character-wise lowering). -/
def jsToLower (s : String) : String :=
  ⟨s.data.map Char.toLower⟩

/-- JS `String.prototype.trim`: strip leading and trailing whitespace. -/
def jsTrim (s : String) : String :=
  ⟨((s.data.dropWhile Char.isWhitespace).reverse.dropWhile Char.isWhitespace).reverse⟩

/-! ## Data model (`src/types/index.ts`) -/

/-- TS `enum Availability`. -/
inductive Availability
  | AVAILABLE
  | BUSY
  | UNAVAILABLE
deriving DecidableEq

/-- The string value the TS enum constant carries at runtime. -/
def Availability.toStr : Availability → String
  | .AVAILABLE => "AVAILABLE"
  | .BUSY => "BUSY"
  | .UNAVAILABLE => "UNAVAILABLE"

/-- TS `interface Role`. -/
structure Role where
  id : String
  name : String
  createdAt : String := ""
deriving DecidableEq

/-- TS `interface Skill`. -/
structure Skill where
  id : String
  name : String
  createdAt : String := ""
deriving DecidableEq

/-- TS `interface Member`. -/
structure Member where
  id : String
  name : String := ""
  roleId : String := ""
  skillIds : List String := []
  availability : Availability := .AVAILABLE
  email : Option String := none
  createdAt : String := ""
  updatedAt : String := ""
deriving DecidableEq

/-- TS `interface Team`.  `targetSize` is a JS number, modelled as `ℚ`. -/
structure Team where
  id : String
  name : String := ""
  description : String := ""
  memberIds : List String := []
  createdAt : String := ""
  updatedAt : String := ""
  color : Option String := none
  targetRoles : Option (List String) := none
  targetSkills : Option (List String) := none
  targetSize : Option ℚ := none
deriving DecidableEq

/-- TS `interface AppState`.  The `roles` and `skills` collections are typed as
present in TS but may be absent at runtime in states loaded from legacy
local storage (the code defends with `state.roles || {}`), so they are
modelled as `Option`. -/
structure AppState where
  members : List (String × Member) := []
  teams : List (String × Team) := []
  roles : Option (List (String × Role)) := some []
  skills : Option (List (String × Skill)) := some []
  darkMode : Bool := false
  language : String := "en"
deriving DecidableEq

/-! ## `useSearch` (`src/hooks/useSearch.ts`)

A field access `item[field]` yields `null`/`undefined`, a scalar (whose
string form `String(v)` we store directly), or an array of values (each
stored by its string form). -/

inductive FieldValue
  | null
  | scalar (s : String)
  | arr (elems : List String)
deriving DecidableEq

/-- TS `interface SearchConfig<T>`; a searchable field is an accessor. -/
structure SearchConfig (α : Type) where
  searchableFields : List (α → FieldValue)
  customSearchFn : Option (α → String → Bool) := none

/-- Body of the `searchableFields.some(...)` callback in `useSearch`. -/
def fieldValueMatches (v : FieldValue) (lowerSearchTerm : String) : Bool :=
  match v with
  | .null => false
  | .scalar s => strContains (jsToLower s) lowerSearchTerm
  | .arr elems => elems.any (fun e => strContains (jsToLower e) lowerSearchTerm)

/-- Function `useSearch` (the memoized computation it returns). -/
def useSearch {α : Type} (items : List α) (searchTerm : String)
    (config : SearchConfig α) : List α :=
  if (jsTrim searchTerm).isEmpty then items
  else
    let lowerSearchTerm := jsToLower searchTerm
    items.filter (fun item =>
      match config.customSearchFn with
      | some fn => fn item lowerSearchTerm
      | none =>
        config.searchableFields.any (fun field =>
          fieldValueMatches (field item) lowerSearchTerm))

/-! ## `useFilter` (`src/hooks/useFilter.ts`) -/

/-- TS `type FilterValue = string | string[] | number | boolean | null`. -/
inductive FilterValue
  | str (s : String)
  | arr (elems : List String)
  | num (n : ℚ)
  | bool (b : Bool)
  | null
deriving DecidableEq

/-- JS truthiness of a `FilterValue` (`!value` is its negation); note that an
array is always truthy, even when empty. -/
def FilterValue.truthy : FilterValue → Bool
  | .str s => !s.isEmpty
  | .arr _ => true
  | .num n => n != 0
  | .bool b => b
  | .null => false

/-- TS `interface FilterDefinition<T>` (UI-only `options` omitted). -/
structure FilterDefinition (α : Type) where
  id : String
  label : String
  field : String
  condition : α → FilterValue → Bool

/-- TS `interface ActiveFilter`. -/
structure ActiveFilter where
  id : String
  value : FilterValue

/-- The memoized `filteredItems` computation of `useFilter`. -/
def filteredItems {α : Type} (items : List α)
    (filterDefinitions : List (FilterDefinition α))
    (activeFilters : List ActiveFilter) : List α :=
  if activeFilters.length = 0 then items
  else
    items.filter (fun item =>
      activeFilters.all (fun activeFilter =>
        match filterDefinitions.find? (fun d => d.id == activeFilter.id) with
        | none => true
        | some definition => definition.condition item activeFilter.value))

/-! ## `useMemberFilters` (`src/features/members/hooks/useMemberFilters.ts`) -/

/-- TS `interface MemberWithNames extends Member` (resolved names). -/
structure MemberWithNames where
  id : String
  name : String := ""
  roleName : String := ""
  skillNames : List String := []
  availability : Availability := .AVAILABLE
deriving DecidableEq

/-- One step of `buildMemberTeamsIndex`'s inner loop:
`if (!index.has(memberId)) index.set(memberId, new Set()); index.get(memberId)!.add(team.id)`. -/
def indexAdd : List (String × List String) → String → String → List (String × List String)
  | [], memberId, teamId => [(memberId, sinsert [] teamId)]
  | (k, s) :: rest, memberId, teamId =>
    if k == memberId then (k, sinsert s teamId) :: rest
    else (k, s) :: indexAdd rest memberId teamId

/-- Function `buildMemberTeamsIndex`: member id ↦ set of ids of teams listing it. -/
def buildMemberTeamsIndex (teams : List Team) : List (String × List String) :=
  teams.foldl
    (fun index team =>
      team.memberIds.foldl (fun index memberId => indexAdd index memberId team.id) index)
    []

/-- The `'role'` filter condition. -/
def roleCondition (member : MemberWithNames) (value : FilterValue) : Bool :=
  if !value.truthy || (match value with | .arr l => l.isEmpty | _ => false) then true
  else
    match value with
    | .arr l => l.contains member.roleName
    | .str s => member.roleName == s
    | _ => false

/-- The `'skills'` filter condition. -/
def skillsCondition (member : MemberWithNames) (value : FilterValue) : Bool :=
  if !value.truthy || (match value with | .arr l => l.isEmpty | _ => false) then true
  else
    match value with
    | .arr l => l.any (fun skill => member.skillNames.contains skill)
    | .str s => member.skillNames.contains s
    | _ => false

/-- The `'availability'` filter condition. -/
def availabilityCondition (member : MemberWithNames) (value : FilterValue) : Bool :=
  if !value.truthy || (match value with | .arr l => l.isEmpty | _ => false) then true
  else
    match value with
    | .arr l => l.contains member.availability.toStr
    | .str s => member.availability.toStr == s
    | _ => false

/-- The `'teams'` filter condition, over the pre-computed index. -/
def teamsCondition (memberTeamsIndex : List (String × List String))
    (member : MemberWithNames) (value : FilterValue) : Bool :=
  if !value.truthy || (match value with | .arr l => l.isEmpty | _ => false) then true
  else
    match rlookup memberTeamsIndex member.id with
    | none => false
    | some memberTeamIds =>
      if memberTeamIds.length = 0 then false
      else
        match value with
        | .arr l => l.any (fun teamId => memberTeamIds.contains teamId)
        | .str s => memberTeamIds.contains s
        | _ => false

/-- The filter definition list built by `useMemberFilters` (labels are the
translation keys passed to `t`). -/
def useMemberFilters (teams : List Team) : List (FilterDefinition MemberWithNames) :=
  let memberTeamsIndex := buildMemberTeamsIndex teams
  [ { id := "role", label := "filter.roles", field := "roleName",
      condition := roleCondition },
    { id := "skills", label := "filter.skills", field := "skillNames",
      condition := skillsCondition },
    { id := "availability", label := "filter.availability", field := "availability",
      condition := availabilityCondition },
    { id := "teams", label := "filter.teams", field := "id",
      condition := teamsCondition memberTeamsIndex } ]

/-! ## `useListingView` (`src/hooks/useSearch.ts` second half) -/

/-- JS `Array.prototype.slice(start, stop)` for non-negative indices. -/
def jsSlice {α : Type} (l : List α) (start stop : Nat) : List α :=
  (l.drop start).take (stop - start)

/-- The memoized `paginatedItems` computation of `useListingView`:
`items.slice(page * rowsPerPage, page * rowsPerPage + rowsPerPage)`. -/
def paginatedItems {α : Type} (items : List α) (page rowsPerPage : Nat) : List α :=
  jsSlice items (page * rowsPerPage) (page * rowsPerPage + rowsPerPage)

/-- Field `totalItems: items.length`. -/
def totalItems {α : Type} (items : List α) : Nat :=
  items.length

/-! ## `calculateStatistics` (`src/utils/statistics.ts`) -/

/-- TS `Record<Availability, number>` with the three enum keys. -/
structure AvailabilityDistribution where
  AVAILABLE : Nat
  BUSY : Nat
  UNAVAILABLE : Nat
deriving DecidableEq

/-- Statement `availabilityDistribution[member.availability]++`. -/
def availBump (d : AvailabilityDistribution) : Availability → AvailabilityDistribution
  | .AVAILABLE => { d with AVAILABLE := d.AVAILABLE + 1 }
  | .BUSY => { d with BUSY := d.BUSY + 1 }
  | .UNAVAILABLE => { d with UNAVAILABLE := d.UNAVAILABLE + 1 }

/-- Expression `collection[id]?.name || 'Unknown'`: optional-chained name with JS falsy
fallback (a missing entry and an empty name both yield `'Unknown'`). -/
def resolveName (n : Option String) : String :=
  match n with
  | some s => if s.isEmpty then "Unknown" else s
  | none => "Unknown"

/-- Statement `dist[key] = (dist[key] || 0) + 1`. -/
def distBump (dist : List (String × Nat)) (key : String) : List (String × Nat) :=
  rinsert dist key (((rlookup dist key).getD 0) + 1)

/-- Accumulators of the team-target `forEach` loop in `calculateStatistics`. -/
structure TargetAcc where
  teamsWithTargets : Nat := 0
  teamsAtTargetSize : Nat := 0
  teamsBelowTargetSize : Nat := 0
  teamsAboveTargetSize : Nat := 0
  membersInRoleTargetedTeams : List String := []
  membersInSkillTargetedTeams : List String := []
  membersMatchingTargetRoles : List String := []
  membersNotMatchingTargetRoles : List String := []
  membersMatchingTargetSkills : List String := []
  membersNotMatchingTargetSkills : List String := []

/-- Expression `team.targetRoles && team.targetRoles.length > 0`. -/
def Team.roleTargeted (team : Team) : Bool :=
  match team.targetRoles with
  | some l => decide (l.length > 0)
  | none => false

/-- Expression `team.targetSkills && team.targetSkills.length > 0`. -/
def Team.skillTargeted (team : Team) : Bool :=
  match team.targetSkills with
  | some l => decide (l.length > 0)
  | none => false

/-- Body of the `team.memberIds.forEach` loop under "Check target roles". -/
def roleMemberStep (membersRec : List (String × Member)) (team : Team)
    (acc : TargetAcc) (memberId : String) : TargetAcc :=
  match rlookup membersRec memberId with
  | none => acc
  | some member =>
    let acc := { acc with
      membersInRoleTargetedTeams := sinsert acc.membersInRoleTargetedTeams memberId }
    if (team.targetRoles.getD []).contains member.roleId then
      { acc with
        membersMatchingTargetRoles := sinsert acc.membersMatchingTargetRoles memberId }
    else
      { acc with
        membersNotMatchingTargetRoles := sinsert acc.membersNotMatchingTargetRoles memberId }

/-- Body of the `team.memberIds.forEach` loop under "Check target skills". -/
def skillMemberStep (membersRec : List (String × Member)) (team : Team)
    (acc : TargetAcc) (memberId : String) : TargetAcc :=
  match rlookup membersRec memberId with
  | none => acc
  | some member =>
    let acc := { acc with
      membersInSkillTargetedTeams := sinsert acc.membersInSkillTargetedTeams memberId }
    if member.skillIds.any (fun skillId => (team.targetSkills.getD []).contains skillId) then
      { acc with
        membersMatchingTargetSkills := sinsert acc.membersMatchingTargetSkills memberId }
    else
      { acc with
        membersNotMatchingTargetSkills := sinsert acc.membersNotMatchingTargetSkills memberId }

/-- First half of the `teams.forEach` body: the `teamsWithTargets` count and
the target-size buckets. -/
def targetCountStep (acc : TargetAcc) (team : Team) : TargetAcc :=
  let hasTargetCriteria :=
    team.roleTargeted || team.skillTargeted || team.targetSize.isSome
  let acc :=
    if hasTargetCriteria then { acc with teamsWithTargets := acc.teamsWithTargets + 1 }
    else acc
  match team.targetSize with
  | none => acc
  | some targetSize =>
    let currentSize : ℚ := team.memberIds.length
    if currentSize = targetSize then
      { acc with teamsAtTargetSize := acc.teamsAtTargetSize + 1 }
    else if currentSize < targetSize then
      { acc with teamsBelowTargetSize := acc.teamsBelowTargetSize + 1 }
    else
      { acc with teamsAboveTargetSize := acc.teamsAboveTargetSize + 1 }

/-- Body of the `teams.forEach` loop in `calculateStatistics`. -/
def teamStep (membersRec : List (String × Member)) (acc : TargetAcc) (team : Team) :
    TargetAcc :=
  let acc := targetCountStep acc team
  let acc :=
    if team.roleTargeted then team.memberIds.foldl (roleMemberStep membersRec team) acc
    else acc
  if team.skillTargeted then team.memberIds.foldl (skillMemberStep membersRec team) acc
  else acc

/-- TS `interface Statistics`. -/
structure Statistics where
  totalMembers : Nat
  totalTeams : Nat
  totalRoles : Nat
  totalSkills : Nat
  averageTeamSize : ℚ
  skillDistribution : List (String × Nat)
  availabilityDistribution : AvailabilityDistribution
  roleDistribution : List (String × Nat)
  teamsWithTargets : Nat
  teamsAtTargetSize : Nat
  teamsBelowTargetSize : Nat
  teamsAboveTargetSize : Nat
  membersMatchingTargetRoles : Nat
  membersNotMatchingTargetRoles : Nat
  membersMatchingTargetSkills : Nat
  membersNotMatchingTargetSkills : Nat
  targetRoleCoverage : ℚ
  targetSkillCoverage : ℚ
  targetSizeCoverage : ℚ
deriving DecidableEq

/-- Function `calculateStatistics` (`src/utils/statistics.ts`). -/
def calculateStatistics (state : AppState) : Statistics :=
  let members := rvalues state.members
  let teams := rvalues state.teams
  let roles := state.roles.getD []
  let skills := state.skills.getD []
  let totalMembers := members.length
  let totalTeams := teams.length
  let totalRoles := rsize roles
  let totalSkills := rsize skills
  let averageTeamSize : ℚ :=
    if totalTeams > 0 then
      ((teams.foldl (fun sum team => sum + team.memberIds.length) 0 : Nat) : ℚ) / totalTeams
    else 0
  let skillDistribution :=
    members.foldl
      (fun dist member =>
        member.skillIds.foldl
          (fun dist skillId =>
            distBump dist (resolveName ((rlookup skills skillId).map (·.name))))
          dist)
      []
  let availabilityDistribution :=
    members.foldl (fun d member => availBump d member.availability)
      { AVAILABLE := 0, BUSY := 0, UNAVAILABLE := 0 }
  let roleDistribution :=
    members.foldl
      (fun dist member =>
        distBump dist (resolveName ((rlookup roles member.roleId).map (·.name))))
      []
  let acc := teams.foldl (teamStep state.members) {}
  let totalMembersInRoleTargetedTeams := acc.membersInRoleTargetedTeams.length
  let targetRoleCoverage : ℚ :=
    if totalMembersInRoleTargetedTeams > 0 then
      ((acc.membersMatchingTargetRoles.length : ℚ) / totalMembersInRoleTargetedTeams) * 100
    else 0
  let totalMembersInSkillTargetedTeams := acc.membersInSkillTargetedTeams.length
  let targetSkillCoverage : ℚ :=
    if totalMembersInSkillTargetedTeams > 0 then
      ((acc.membersMatchingTargetSkills.length : ℚ) / totalMembersInSkillTargetedTeams) * 100
    else 0
  let teamsWithTargetSize :=
    acc.teamsAtTargetSize + acc.teamsBelowTargetSize + acc.teamsAboveTargetSize
  let targetSizeCoverage : ℚ :=
    if teamsWithTargetSize > 0 then
      ((acc.teamsAtTargetSize : ℚ) / teamsWithTargetSize) * 100
    else 0
  { totalMembers := totalMembers
    totalTeams := totalTeams
    totalRoles := totalRoles
    totalSkills := totalSkills
    averageTeamSize := averageTeamSize
    skillDistribution := skillDistribution
    availabilityDistribution := availabilityDistribution
    roleDistribution := roleDistribution
    teamsWithTargets := acc.teamsWithTargets
    teamsAtTargetSize := acc.teamsAtTargetSize
    teamsBelowTargetSize := acc.teamsBelowTargetSize
    teamsAboveTargetSize := acc.teamsAboveTargetSize
    membersMatchingTargetRoles := acc.membersMatchingTargetRoles.length
    membersNotMatchingTargetRoles := acc.membersNotMatchingTargetRoles.length
    membersMatchingTargetSkills := acc.membersMatchingTargetSkills.length
    membersNotMatchingTargetSkills := acc.membersNotMatchingTargetSkills.length
    targetRoleCoverage := targetRoleCoverage
    targetSkillCoverage := targetSkillCoverage
    targetSizeCoverage := targetSizeCoverage }

/-! ## `appReducer` (`src/contexts/appReducer.ts`)

`new Date().toISOString()` is modelled by an explicit `now : String`
argument threaded to the reducer. -/

/-- TS `type Action` (discriminated union). -/
inductive Action
  | ADD_MEMBER (payload : Member)
  | UPDATE_MEMBER (payload : Member)
  | DELETE_MEMBER (payload : String)
  | ADD_TEAM (payload : Team)
  | UPDATE_TEAM (payload : Team)
  | DELETE_TEAM (payload : String)
  | ADD_ROLE (payload : Role)
  | UPDATE_ROLE (payload : Role)
  | DELETE_ROLE (payload : String)
  | ADD_SKILL (payload : Skill)
  | UPDATE_SKILL (payload : Skill)
  | DELETE_SKILL (payload : String)
  | ASSIGN_MEMBER_TO_TEAM (memberId teamId : String)
  | REMOVE_MEMBER_FROM_TEAM (memberId teamId : String)
  | ASSIGN_MEMBERS_TO_TEAM (memberIds : List String) (teamId : String)
  | TOGGLE_DARK_MODE
  | SET_LANGUAGE (payload : String)
  | LOAD_STATE (payload : AppState)
  | RESET_STATE

/-- Constant `initialState`. -/
def initialState : AppState :=
  { members := [], teams := [], roles := some [], skills := some [],
    darkMode := false, language := "en" }

/-- Function `appReducer`.  On `DELETE_ROLE`/`DELETE_SKILL`/`ADD_ROLE`/... the `roles`
and `skills` collections are accessed through `getD []`; the TS type declares
them present, and every state the app builds has them. -/
def appReducer (now : String) (state : AppState) (action : Action) : AppState :=
  match action with
  | .ADD_MEMBER payload =>
    { state with members := rinsert state.members payload.id payload }
  | .UPDATE_MEMBER payload =>
    { state with members := rinsert state.members payload.id payload }
  | .DELETE_MEMBER payload =>
    let remainingMembers := rerase state.members payload
    let updatedTeams :=
      (rvalues state.teams).foldl
        (fun acc team =>
          rinsert acc team.id
            { team with
              memberIds := team.memberIds.filter (fun id => !(id == payload)),
              updatedAt := now })
        []
    { state with members := remainingMembers, teams := updatedTeams }
  | .ADD_TEAM payload =>
    { state with teams := rinsert state.teams payload.id payload }
  | .UPDATE_TEAM payload =>
    { state with teams := rinsert state.teams payload.id payload }
  | .DELETE_TEAM payload =>
    { state with teams := rerase state.teams payload }
  | .ADD_ROLE payload =>
    { state with roles := some (rinsert (state.roles.getD []) payload.id payload) }
  | .UPDATE_ROLE payload =>
    { state with roles := some (rinsert (state.roles.getD []) payload.id payload) }
  | .DELETE_ROLE payload =>
    { state with roles := some (rerase (state.roles.getD []) payload) }
  | .ADD_SKILL payload =>
    { state with skills := some (rinsert (state.skills.getD []) payload.id payload) }
  | .UPDATE_SKILL payload =>
    { state with skills := some (rinsert (state.skills.getD []) payload.id payload) }
  | .DELETE_SKILL payload =>
    let remainingSkills := rerase (state.skills.getD []) payload
    let updatedMembers :=
      (rvalues state.members).foldl
        (fun acc member =>
          rinsert acc member.id
            { member with
              skillIds := member.skillIds.filter (fun id => !(id == payload)),
              updatedAt := now })
        []
    { state with skills := some remainingSkills, members := updatedMembers }
  | .ASSIGN_MEMBER_TO_TEAM memberId teamId =>
    match rlookup state.teams teamId with
    | none => state
    | some team =>
      if team.memberIds.contains memberId then state
      else
        { state with
          teams := rinsert state.teams teamId
            { team with memberIds := team.memberIds ++ [memberId], updatedAt := now } }
  | .REMOVE_MEMBER_FROM_TEAM memberId teamId =>
    match rlookup state.teams teamId with
    | none => state
    | some team =>
      { state with
        teams := rinsert state.teams teamId
          { team with
            memberIds := team.memberIds.filter (fun id => !(id == memberId)),
            updatedAt := now } }
  | .ASSIGN_MEMBERS_TO_TEAM memberIds teamId =>
    match rlookup state.teams teamId with
    | none => state
    | some team =>
      let newMemberIds := memberIds.filter (fun id => !(team.memberIds.contains id))
      { state with
        teams := rinsert state.teams teamId
          { team with memberIds := team.memberIds ++ newMemberIds, updatedAt := now } }
  | .TOGGLE_DARK_MODE =>
    { state with darkMode := !state.darkMode }
  | .SET_LANGUAGE payload =>
    { state with language := payload }
  | .LOAD_STATE payload =>
    { payload with
      roles := some (payload.roles.getD []),
      skills := some (payload.skills.getD []) }
  | .RESET_STATE => initialState

/-! ## Basic lemmas about the JS primitives -/

theorem strContains_iff_infix (hay needle : String) :
    strContains hay needle = true ↔ needle.data <:+: hay.data := by
  simp only [strContains, containsSub, List.any_eq_true, List.mem_tails,
    List.isPrefixOf_iff_prefix, List.infix_iff_prefix_suffix]
  exact ⟨fun ⟨t, h1, h2⟩ => ⟨t, h2, h1⟩, fun ⟨t, h1, h2⟩ => ⟨t, h2, h1⟩⟩

theorem mem_sinsert (s : List String) (x y : String) :
    y ∈ sinsert s x ↔ y ∈ s ∨ y = x := by
  by_cases h : x ∈ s
  · simp only [sinsert, if_pos h]
    exact ⟨Or.inl, fun hc => hc.elim id (fun he => he ▸ h)⟩
  · simp [sinsert, if_neg h]

theorem nodup_sinsert (s : List String) (x : String) (h : s.Nodup) :
    (sinsert s x).Nodup := by
  by_cases hx : x ∈ s
  · simpa [sinsert, if_pos hx] using h
  · simp [sinsert, if_neg hx, List.nodup_append, h, hx]

theorem rlookup_rinsert_self {α : Type} (r : List (String × α)) (k : String) (v : α) :
    rlookup (rinsert r k v) k = some v := by
  induction r with
  | nil => simp [rinsert, rlookup, List.find?]
  | cons hd tl ih =>
    obtain ⟨k', v'⟩ := hd
    by_cases h : k' = k
    · simp [rinsert, rlookup, h, List.find?]
    · have hb : (k' == k) = false := by simpa using h
      simp only [rinsert, hb, Bool.false_eq_true, if_false]
      simpa [rlookup, List.find?, hb] using ih

theorem rlookup_rerase_self {α : Type} (r : List (String × α)) (k : String) :
    rlookup (rerase r k) k = none := by
  simp only [rlookup, Option.map_eq_none', List.find?_eq_none, rerase]
  intro p hp
  rcases List.mem_filter.mp hp with ⟨-, hpk⟩
  simpa using hpk

theorem rvalues_nil {α : Type} : rvalues ([] : List (String × α)) = [] := rfl

theorem rvalues_cons {α : Type} (k : String) (v : α) (r : List (String × α)) :
    rvalues ((k, v) :: r) = v :: rvalues r := rfl

theorem mem_rvalues_rinsert {α : Type} {x : α} (r : List (String × α)) (k : String) (v : α)
    (h : x ∈ rvalues (rinsert r k v)) : x ∈ rvalues r ∨ x = v := by
  induction r with
  | nil =>
    simp only [rinsert, rvalues_cons, rvalues_nil] at h
    exact Or.inr (by simpa using h)
  | cons hd tl ih =>
    obtain ⟨k', v'⟩ := hd
    by_cases hk : (k' == k) = true
    · simp only [rinsert, hk, if_true, rvalues_cons] at h
      rcases List.mem_cons.mp h with h | h
      · exact Or.inr h
      · exact Or.inl (by rw [rvalues_cons]; exact List.mem_cons_of_mem _ h)
    · simp only [rinsert, hk, Bool.false_eq_true, if_false, rvalues_cons] at h
      rcases List.mem_cons.mp h with h | h
      · exact Or.inl (by rw [rvalues_cons, h]; exact List.mem_cons_self _ _)
      · rcases ih h with h' | h'
        · exact Or.inl (by rw [rvalues_cons]; exact List.mem_cons_of_mem _ h')
        · exact Or.inr h'

/-- Every value in a record built by repeated `rinsert` from a list comes from
the initial record or is the image of a list element. -/
theorem mem_rvalues_foldl_rinsert {α β : Type} (key : β → String) (f : β → α)
    (l : List β) (init : List (String × α)) (x : α)
    (h : x ∈ rvalues (l.foldl (fun acc b => rinsert acc (key b) (f b)) init)) :
    x ∈ rvalues init ∨ ∃ b ∈ l, x = f b := by
  induction l generalizing init with
  | nil => exact Or.inl h
  | cons hd tl ih =>
    rcases ih (rinsert init (key hd) (f hd)) h with h' | h'
    · rcases mem_rvalues_rinsert init (key hd) (f hd) h' with h'' | h''
      · exact Or.inl h''
      · exact Or.inr ⟨hd, List.mem_cons_self hd tl, h''⟩
    · rcases h' with ⟨b, hb, hx⟩
      exact Or.inr ⟨b, List.mem_cons_of_mem hd hb, hx⟩

/-! ## C3: page-window slicing -/

/-- C3: for every item list, page index `p` and page size `s`, the
`paginatedItems` of `useListingView` are the contiguous slice from `p*s`
(inclusive) to `p*s + s` (exclusive); hence the page holds at most `s`
items, is empty when `p*s` is at or past the end, and `totalItems` is the
full list length. -/
theorem useListingView_page_window {α : Type} (items : List α) (p s : Nat) :
    paginatedItems items p s = (items.drop (p * s)).take s ∧
    (paginatedItems items p s).length ≤ s ∧
    (items.length ≤ p * s → paginatedItems items p s = []) ∧
    totalItems items = items.length := by
  have hslice : paginatedItems items p s = (items.drop (p * s)).take s := by
    simp [paginatedItems, jsSlice]
  refine ⟨hslice, ?_, ?_, rfl⟩
  · rw [hslice]
    exact le_trans (List.length_take_le _ _) le_rfl
  · intro h
    rw [hslice, List.drop_eq_nil_of_le h, List.take_nil]

theorem useListingView_page_window_witness :
    paginatedItems ([10, 20, 30] : List Nat) 2 2 = [] :=
  (useListingView_page_window [10, 20, 30] 2 2).2.2.1 (by decide)

/-! ## C1: field-based substring search -/

/-- The Boolean field match, restated as the claim's predicate: a `null` or
`undefined` value never matches, a scalar matches when its lowercased string
form contains the lowercased term as a contiguous substring, an array matches
when some element's lowercased string form does. -/
theorem fieldValueMatches_iff (v : FieldValue) (t : String) :
    fieldValueMatches v t = true ↔
      (match v with
       | .null => False
       | .scalar s => t.data <:+: (jsToLower s).data
       | .arr elems => ∃ e ∈ elems, t.data <:+: (jsToLower e).data) := by
  cases v with
  | null => simp [fieldValueMatches]
  | scalar s => simp [fieldValueMatches, strContains_iff_infix]
  | arr elems => simp [fieldValueMatches, List.any_eq_true, strContains_iff_infix]

/-- C1: for every item list, every search term whose trimmed form is
non-empty, and every config without a custom search function, `useSearch`
returns a sublist of the input (so result order is input order) holding
exactly the items for which some searchable field matches: scalar fields by
lowercased substring containment, array fields element-wise, and null or
undefined field values never. -/
theorem useSearch_matches_spec {α : Type} (items : List α) (searchTerm : String)
    (config : SearchConfig α)
    (hterm : (jsTrim searchTerm).isEmpty = false)
    (hcustom : config.customSearchFn = none) :
    (useSearch items searchTerm config).Sublist items ∧
    ∀ x, x ∈ useSearch items searchTerm config ↔
      x ∈ items ∧ ∃ field ∈ config.searchableFields,
        (match field x with
         | .null => False
         | .scalar s => (jsToLower searchTerm).data <:+: (jsToLower s).data
         | .arr elems => ∃ e ∈ elems, (jsToLower searchTerm).data <:+: (jsToLower e).data) := by
  have hsearch : useSearch items searchTerm config =
      items.filter (fun item =>
        config.searchableFields.any (fun field =>
          fieldValueMatches (field item) (jsToLower searchTerm))) := by
    simp [useSearch, hterm, hcustom]
  constructor
  · rw [hsearch]; exact List.filter_sublist items
  · intro x
    rw [hsearch, List.mem_filter, List.any_eq_true]
    constructor
    · rintro ⟨hx, field, hf, hm⟩
      exact ⟨hx, field, hf, (fieldValueMatches_iff _ _).mp hm⟩
    · rintro ⟨hx, field, hf, hm⟩
      exact ⟨hx, field, hf, (fieldValueMatches_iff _ _).mpr hm⟩

theorem useSearch_matches_spec_witness :
    (useSearch ["Alice", "bob"] "AL"
        { searchableFields := [fun s => FieldValue.scalar s] }).Sublist ["Alice", "bob"] ∧
    useSearch ["Alice", "bob"] "AL"
        { searchableFields := [fun s => FieldValue.scalar s] } = ["Alice"] :=
  ⟨(useSearch_matches_spec ["Alice", "bob"] "AL"
      { searchableFields := [fun s => FieldValue.scalar s] } (by decide) rfl).1,
   by decide⟩

/-! ## C7: reducer frame conditions -/

/-- The six top-level fields of `AppState`. -/
inductive StateField
  | members | teams | roles | skills | darkMode | language
deriving DecidableEq

/-- The top-level state fields each action addresses (writes or may write),
read off the corresponding `case` of `appReducer`. -/
def Action.addressedFields : Action → List StateField
  | .ADD_MEMBER _ => [.members]
  | .UPDATE_MEMBER _ => [.members]
  | .DELETE_MEMBER _ => [.members, .teams]
  | .ADD_TEAM _ => [.teams]
  | .UPDATE_TEAM _ => [.teams]
  | .DELETE_TEAM _ => [.teams]
  | .ADD_ROLE _ => [.roles]
  | .UPDATE_ROLE _ => [.roles]
  | .DELETE_ROLE _ => [.roles]
  | .ADD_SKILL _ => [.skills]
  | .UPDATE_SKILL _ => [.skills]
  | .DELETE_SKILL _ => [.skills, .members]
  | .ASSIGN_MEMBER_TO_TEAM _ _ => [.teams]
  | .REMOVE_MEMBER_FROM_TEAM _ _ => [.teams]
  | .ASSIGN_MEMBERS_TO_TEAM _ _ => [.teams]
  | .TOGGLE_DARK_MODE => [.darkMode]
  | .SET_LANGUAGE _ => [.language]
  | .LOAD_STATE _ => [.members, .teams, .roles, .skills, .darkMode, .language]
  | .RESET_STATE => [.members, .teams, .roles, .skills, .darkMode, .language]

/-- Two states agree on a given top-level field. -/
def AppState.fieldEq (s₁ s₂ : AppState) : StateField → Prop
  | .members => s₁.members = s₂.members
  | .teams => s₁.teams = s₂.teams
  | .roles => s₁.roles = s₂.roles
  | .skills => s₁.skills = s₂.skills
  | .darkMode => s₁.darkMode = s₂.darkMode
  | .language => s₁.language = s₂.language

/-- C7: the reducer is a pure function to a new state value — every
top-level field outside the action's footprint is returned unchanged — and
in particular `SET_LANGUAGE` changes only `language`, `TOGGLE_DARK_MODE`
only `darkMode`, `ADD_MEMBER` only `members`, `ADD_TEAM` only `teams`. -/
theorem appReducer_frame (now : String) (s : AppState) :
    (∀ (a : Action) (f : StateField), f ∉ a.addressedFields →
      AppState.fieldEq (appReducer now s a) s f) ∧
    (∀ l, appReducer now s (.SET_LANGUAGE l) = { s with language := l }) ∧
    (appReducer now s .TOGGLE_DARK_MODE = { s with darkMode := !s.darkMode }) ∧
    (∀ m, appReducer now s (.ADD_MEMBER m) =
      { s with members := rinsert s.members m.id m }) ∧
    (∀ t, appReducer now s (.ADD_TEAM t) =
      { s with teams := rinsert s.teams t.id t }) := by
  refine ⟨?_, fun _ => rfl, rfl, fun _ => rfl, fun _ => rfl⟩
  intro a f hf
  cases a <;> cases f <;>
    simp_all [Action.addressedFields, appReducer, AppState.fieldEq] <;>
    (split <;> (try split) <;> simp_all)

theorem appReducer_frame_witness :
    AppState.fieldEq (appReducer "now" initialState .TOGGLE_DARK_MODE) initialState
      .members :=
  (appReducer_frame "now" initialState).1 .TOGGLE_DARK_MODE .members (by decide)

/-! ## C10: idempotent assignment -/

/-- C10: assigning a member to a team is idempotent and never duplicates:
if the team does not exist or already lists the member the reducer returns
the input state itself; otherwise it appends the member id exactly once, and
re-applying the same assignment (with any later timestamp) changes nothing. -/
theorem assign_member_idempotent (now now' : String) (s : AppState)
    (memberId teamId : String) :
    (rlookup s.teams teamId = none →
      appReducer now s (.ASSIGN_MEMBER_TO_TEAM memberId teamId) = s) ∧
    (∀ team, rlookup s.teams teamId = some team → memberId ∈ team.memberIds →
      appReducer now s (.ASSIGN_MEMBER_TO_TEAM memberId teamId) = s) ∧
    (∀ team, rlookup s.teams teamId = some team → memberId ∉ team.memberIds →
      rlookup (appReducer now s (.ASSIGN_MEMBER_TO_TEAM memberId teamId)).teams teamId =
        some { team with memberIds := team.memberIds ++ [memberId], updatedAt := now } ∧
      (team.memberIds ++ [memberId]).count memberId = 1) ∧
    appReducer now' (appReducer now s (.ASSIGN_MEMBER_TO_TEAM memberId teamId))
        (.ASSIGN_MEMBER_TO_TEAM memberId teamId)
      = appReducer now s (.ASSIGN_MEMBER_TO_TEAM memberId teamId) := by
  refine ⟨?_, ?_, ?_, ?_⟩
  · intro h; simp [appReducer, h]
  · intro team h hmem; simp [appReducer, h, hmem]
  · intro team h hmem
    constructor
    · simp only [appReducer, h, hmem, if_neg]
      simpa [hmem] using rlookup_rinsert_self s.teams teamId
        { team with memberIds := team.memberIds ++ [memberId], updatedAt := now }
    · rw [List.count_append]
      rw [List.count_eq_zero.mpr hmem]
      simp
  · cases h : rlookup s.teams teamId with
    | none => simp [appReducer, h]
    | some team =>
      by_cases hmem : memberId ∈ team.memberIds
      · simp [appReducer, h, hmem]
      · have hfst : appReducer now s (.ASSIGN_MEMBER_TO_TEAM memberId teamId) = { s with teams := rinsert s.teams teamId { team with memberIds := team.memberIds ++ [memberId], updatedAt := now } } := by
          simp [appReducer, h, hmem]
        rw [hfst]
        have hlk : rlookup (rinsert s.teams teamId
            { team with memberIds := team.memberIds ++ [memberId], updatedAt := now }) teamId
            = some { team with memberIds := team.memberIds ++ [memberId], updatedAt := now } :=
          rlookup_rinsert_self _ _ _
        simp [appReducer, hlk]

theorem assign_member_idempotent_witness :
    appReducer "t1" { initialState with
        teams := [("T", { id := "T", memberIds := [] })] }
      (.ASSIGN_MEMBER_TO_TEAM "m" "missing")
    = { initialState with teams := [("T", { id := "T", memberIds := [] })] } :=
  (assign_member_idempotent "t1" "t2"
    { initialState with teams := [("T", { id := "T", memberIds := [] })] }
    "m" "missing").1 (by decide)

/-! ## C9: delete actions cascade -/

/-- C9: after `DELETE_MEMBER m`, `m` is gone from the members collection and
from every remaining team's `memberIds`; after `DELETE_SKILL sk`, `sk` is
gone from the skills collection and from every remaining member's
`skillIds`. -/
theorem delete_cascades (now : String) (s : AppState) (memberId skillId : String) :
    (rlookup (appReducer now s (.DELETE_MEMBER memberId)).members memberId = none ∧
     ∀ team ∈ rvalues (appReducer now s (.DELETE_MEMBER memberId)).teams,
       memberId ∉ team.memberIds) ∧
    (rlookup ((appReducer now s (.DELETE_SKILL skillId)).skills.getD []) skillId = none ∧
     ∀ member ∈ rvalues (appReducer now s (.DELETE_SKILL skillId)).members,
       skillId ∉ member.skillIds) := by
  refine ⟨⟨?_, ?_⟩, ⟨?_, ?_⟩⟩
  · exact rlookup_rerase_self s.members memberId
  · intro team hteam
    simp only [appReducer] at hteam
    rcases mem_rvalues_foldl_rinsert (fun t => t.id) (fun t => { t with memberIds := t.memberIds.filter (fun id => !(id == memberId)), updatedAt := now }) (rvalues s.teams) [] team hteam with h | ⟨t, -, ht⟩
    · simp [rvalues_nil] at h
    · subst ht
      intro hmem
      rcases List.mem_filter.mp hmem with ⟨-, hne⟩
      simp at hne
  · exact rlookup_rerase_self (s.skills.getD []) skillId
  · intro member hmember
    simp only [appReducer] at hmember
    rcases mem_rvalues_foldl_rinsert (fun m => m.id) (fun m => { m with skillIds := m.skillIds.filter (fun id => !(id == skillId)), updatedAt := now }) (rvalues s.members) [] member hmember with h | ⟨m, -, hm⟩
    · simp [rvalues_nil] at h
    · subst hm
      intro hmem
      rcases List.mem_filter.mp hmem with ⟨-, hne⟩
      simp at hne

theorem delete_cascades_witness :
    "m1" ∉ ({ id := "T", memberIds := ["m2"], updatedAt := "t" } : Team).memberIds :=
  (delete_cascades "t"
      { initialState with
        members := [("m1", { id := "m1" })],
        teams := [("T", { id := "T", memberIds := ["m1", "m2"] })] }
      "m1" "sk").1.2
    { id := "T", memberIds := ["m2"], updatedAt := "t" } (by decide)

/-! ## C6: the member→teams inverted index -/

/-- Whether the index stores team id `tid` in the set under member id `mid`. -/
def idxHas (idx : List (String × List String)) (mid tid : String) : Bool :=
  match rlookup idx mid with
  | some ids => ids.contains tid
  | none => false

theorem contains_iff_mem (s : List String) (y : String) :
    s.contains y = true ↔ y ∈ s := by
  simp [List.contains, List.elem_iff]

theorem contains_eq_decide (s : List String) (y : String) :
    s.contains y = decide (y ∈ s) := by
  by_cases h : y ∈ s
  · simp [contains_iff_mem, h]
  · simp only [decide_eq_false h, Bool.eq_false_iff, ne_eq]
    intro hc; exact h ((contains_iff_mem s y).mp hc)

theorem contains_sinsert (s : List String) (x y : String) :
    (sinsert s x).contains y = ((y == x) || s.contains y) := by
  rw [contains_eq_decide, contains_eq_decide]
  by_cases h1 : y = x <;> by_cases h2 : y ∈ s <;>
    simp [mem_sinsert, h1, h2]

theorem isEmpty_false_of_ne (s : String) (h : ¬ s = "") : s.isEmpty = false := by
  rw [Bool.eq_false_iff]; intro hc; exact h ((String.isEmpty_iff s).mp hc)

theorem ne_of_isEmpty_false (s : String) (h : s.isEmpty = false) : ¬ s = "" := by
  intro hc; subst hc; exact absurd h (by decide)

theorem rlookup_nil {α : Type} (k : String) : rlookup ([] : List (String × α)) k = none := rfl

theorem rlookup_cons {α : Type} (k : String) (v : α) (r : List (String × α)) (k' : String) :
    rlookup ((k, v) :: r) k' = if k = k' then some v else rlookup r k' := by
  by_cases h : k = k'
  · simp [rlookup, List.find?, h]
  · have hb : (k == k') = false := by simpa using h
    simp [rlookup, List.find?, hb, h]

theorem idxHas_indexAdd (idx : List (String × List String)) (m t m' t' : String) :
    idxHas (indexAdd idx m t) m' t' = true ↔
      ((m' = m ∧ t' = t) ∨ idxHas idx m' t' = true) := by
  induction idx with
  | nil =>
    by_cases h : m = m'
    · subst h
      simp [idxHas, indexAdd, rlookup_cons, rlookup_nil, contains_iff_mem, mem_sinsert,
        sinsert]
    · have hb : ¬ m' = m := fun hc => h hc.symm
      simp [idxHas, indexAdd, rlookup_cons, rlookup_nil, h, hb]
  | cons hd tl ih =>
    obtain ⟨k, s⟩ := hd
    by_cases hk : k = m
    · subst hk
      by_cases hm' : k = m'
      · subst hm'
        simp only [indexAdd, beq_self_eq_true, if_true]
        simp [idxHas, rlookup_cons, contains_iff_mem, mem_sinsert]
        tauto
      · have hb : ¬ m' = k := fun hc => hm' hc.symm
        simp only [indexAdd, beq_self_eq_true, if_true]
        simp [idxHas, rlookup_cons, hm', hb]
    · have hkb : (k == m) = false := by simpa using hk
      by_cases hm' : k = m'
      · subst hm'
        simp only [indexAdd, hkb, Bool.false_eq_true, if_false]
        simp [idxHas, rlookup_cons, contains_iff_mem]
        intro hc
        exact absurd hc hk
      · simp only [indexAdd, hkb, Bool.false_eq_true, if_false]
        simpa [idxHas, rlookup_cons, hm'] using ih

theorem idxHas_foldl_indexAdd (mids : List String) (t : String)
    (idx : List (String × List String)) (m' t' : String) :
    idxHas (mids.foldl (fun i mid => indexAdd i mid t) idx) m' t' = true ↔
      ((m' ∈ mids ∧ t' = t) ∨ idxHas idx m' t' = true) := by
  induction mids generalizing idx with
  | nil => simp
  | cons x xs ih =>
    rw [List.foldl_cons]
    rw [ih, idxHas_indexAdd]
    simp only [List.mem_cons]
    tauto

theorem idxHas_build (teams : List Team) (m t : String) :
    idxHas (buildMemberTeamsIndex teams) m t = true ↔
      ∃ team ∈ teams, team.id = t ∧ m ∈ team.memberIds := by
  have main : ∀ (ts : List Team) (idx : List (String × List String)),
      idxHas (ts.foldl (fun i team =>
          team.memberIds.foldl (fun i mid => indexAdd i mid team.id) i) idx) m t = true ↔
        ((∃ team ∈ ts, m ∈ team.memberIds ∧ t = team.id) ∨ idxHas idx m t = true) := by
    intro ts
    induction ts with
    | nil => simp
    | cons team rest ih =>
      intro idx
      rw [List.foldl_cons, ih, idxHas_foldl_indexAdd]
      rw [List.exists_mem_cons_iff]
      constructor
      · rintro (h | (h | h))
        · exact Or.inl (Or.inr h)
        · exact Or.inl (Or.inl h)
        · exact Or.inr h
      · rintro ((h | h) | h)
        · exact Or.inr (Or.inl h)
        · exact Or.inl h
        · exact Or.inr (Or.inr h)
  have h0 : idxHas [] m t = false := rfl
  rw [buildMemberTeamsIndex, main]
  simp only [h0, Bool.false_eq_true, or_false]
  constructor
  · rintro ⟨team, hteam, hmem, hid⟩
    exact ⟨team, hteam, hid.symm, hmem⟩
  · rintro ⟨team, hteam, hid, hmem⟩
    exact ⟨team, hteam, hmem, hid.symm⟩

theorem rlookup_indexAdd_isSome (idx : List (String × List String)) (m t m' : String) :
    (rlookup (indexAdd idx m t) m').isSome = true ↔
      (m' = m ∨ (rlookup idx m').isSome = true) := by
  induction idx with
  | nil =>
    by_cases h : m = m'
    · simp [indexAdd, rlookup_cons, h, rlookup]
    · have hb : ¬ m' = m := fun hc => h hc.symm
      simp [indexAdd, rlookup_cons, rlookup, h, hb]
  | cons hd tl ih =>
    obtain ⟨k, s⟩ := hd
    by_cases hk : k = m
    · subst hk
      by_cases hm' : k = m'
      · subst hm'
        simp [indexAdd, rlookup_cons]
      · have hb : ¬ m' = k := fun hc => hm' hc.symm
        simp [indexAdd, rlookup_cons, hm', hb]
    · have hkb : (k == m) = false := by simpa using hk
      by_cases hm' : k = m'
      · subst hm'
        simp only [indexAdd, hkb, Bool.false_eq_true, if_false]
        simp [rlookup_cons]
      · simp only [indexAdd, hkb, Bool.false_eq_true, if_false]
        simpa [rlookup_cons, hm'] using ih

theorem rlookup_foldl_indexAdd_isSome (mids : List String) (t : String)
    (idx : List (String × List String)) (m' : String) :
    (rlookup (mids.foldl (fun i mid => indexAdd i mid t) idx) m').isSome = true ↔
      (m' ∈ mids ∨ (rlookup idx m').isSome = true) := by
  induction mids generalizing idx with
  | nil => simp
  | cons x xs ih =>
    rw [List.foldl_cons, ih, rlookup_indexAdd_isSome]
    simp only [List.mem_cons]
    tauto

theorem rlookup_build_none (teams : List Team) (m : String) :
    rlookup (buildMemberTeamsIndex teams) m = none ↔
      ∀ team ∈ teams, m ∉ team.memberIds := by
  have main : ∀ (ts : List Team) (idx : List (String × List String)),
      (rlookup (ts.foldl (fun i team =>
          team.memberIds.foldl (fun i mid => indexAdd i mid team.id) i) idx) m).isSome = true ↔
        ((∃ team ∈ ts, m ∈ team.memberIds) ∨ (rlookup idx m).isSome = true) := by
    intro ts
    induction ts with
    | nil => simp
    | cons team rest ih =>
      intro idx
      rw [List.foldl_cons, ih, rlookup_foldl_indexAdd_isSome]
      rw [List.exists_mem_cons_iff]
      constructor
      · rintro (h | (h | h))
        · exact Or.inl (Or.inr h)
        · exact Or.inl (Or.inl h)
        · exact Or.inr h
      · rintro ((h | h) | h)
        · exact Or.inr (Or.inl h)
        · exact Or.inl h
        · exact Or.inr (Or.inr h)
  have h0 : (rlookup ([] : List (String × List String)) m).isSome = false := rfl
  constructor
  · intro h team hteam hmem
    have : (rlookup (buildMemberTeamsIndex teams) m).isSome = true := by
      rw [buildMemberTeamsIndex, main]
      exact Or.inl ⟨team, hteam, hmem⟩
    rw [h] at this
    exact absurd this (by simp)
  · intro h
    rw [← Option.not_isSome_iff_eq_none]
    rw [buildMemberTeamsIndex, main]
    simp only [h0, Bool.false_eq_true, or_false]
    rintro ⟨team, hteam, hmem⟩
    exact h team hteam hmem

theorem teamsCondition_str (idx : List (String × List String)) (member : MemberWithNames)
    (s : String) (hs : s.isEmpty = false) :
    teamsCondition idx member (.str s) = idxHas idx member.id s := by
  cases hr : rlookup idx member.id with
  | none => simp [teamsCondition, FilterValue.truthy, hs, idxHas, hr]
  | some ids =>
    by_cases hl : ids.length = 0
    · have hids : ids = [] := List.length_eq_zero.mp hl
      subst hids
      simp [teamsCondition, FilterValue.truthy, hs, idxHas, hr]
    · simp [teamsCondition, FilterValue.truthy, hs, idxHas, hr, hl]

theorem teamsCondition_arr (idx : List (String × List String)) (member : MemberWithNames)
    (l : List String) (hl : l.isEmpty = false) :
    teamsCondition idx member (.arr l) = l.any (fun tid => idxHas idx member.id tid) := by
  cases hr : rlookup idx member.id with
  | none =>
    simp only [teamsCondition, FilterValue.truthy, hl, hr]
    simp [idxHas, hr]
  | some ids =>
    by_cases hlen : ids.length = 0
    · have hids : ids = [] := List.length_eq_zero.mp hlen
      subst hids
      simp only [teamsCondition, FilterValue.truthy, hl, hr]
      simp [idxHas, hr]
    · simp only [teamsCondition, FilterValue.truthy, hl, hr, hlen]
      simp [idxHas, hr, hlen]

/-- C6 counterexample to the claim as stated: with a single team of id `""`
listing only `"a"`, the teams filter condition still accepts the member
`"b"` under selected team id `""` (the empty string is falsy and skips the
membership test), although that team does not list `"b"`. -/
theorem teams_filter_empty_id_cex :
    teamsCondition (buildMemberTeamsIndex [{ id := "", memberIds := ["a"] }])
        { id := "b" } (.str "") = true ∧
    "b" ∉ ({ id := "", memberIds := ["a"] } : Team).memberIds := by
  constructor
  · rfl
  · decide

/-- C6 (amended): `buildMemberTeamsIndex` maps a member id `m` to a set
containing team id `t` iff some team with id `t` lists `m`; a member id no
team lists is absent from the map; and consequently the teams filter
condition accepts a member under a *non-empty* selected team id exactly when
some team with that id lists the member (the empty-string id, being falsy,
accepts every member). -/
theorem member_teams_index_amended (teams : List Team) (m tid : String)
    (member : MemberWithNames) :
    (idxHas (buildMemberTeamsIndex teams) m tid = true ↔
      ∃ team ∈ teams, team.id = tid ∧ m ∈ team.memberIds) ∧
    (rlookup (buildMemberTeamsIndex teams) m = none ↔
      ∀ team ∈ teams, m ∉ team.memberIds) ∧
    (tid ≠ "" →
      (teamsCondition (buildMemberTeamsIndex teams) member (.str tid) = true ↔
        ∃ team ∈ teams, team.id = tid ∧ member.id ∈ team.memberIds)) := by
  refine ⟨idxHas_build teams m tid, rlookup_build_none teams m, ?_⟩
  intro htid
  rw [teamsCondition_str _ _ _ (isEmpty_false_of_ne tid htid)]
  exact idxHas_build teams member.id tid

theorem member_teams_index_amended_witness :
    teamsCondition (buildMemberTeamsIndex [{ id := "T", memberIds := ["a"] }])
      { id := "a" } (.str "T") = true :=
  ((member_teams_index_amended [{ id := "T", memberIds := ["a"] }] "a" "T"
      { id := "a" }).2.2 (by decide)).mpr
    ⟨{ id := "T", memberIds := ["a"] }, by decide, rfl, by decide⟩

/-! ## C2: multi-predicate filtering -/

/-- The `'role'` condition as the (amended) claim describes it: a falsy value
(`null`, `false`, `0`, the empty string) or an empty array passes every
member; an array has any-of semantics; a non-empty string requires equality
with the member's role name; a truthy number or `true` matches nothing. -/
def roleConditionSpec (m : MemberWithNames) : FilterValue → Bool
  | .null => true
  | .bool b => !b
  | .num n => n == 0
  | .str s => s.isEmpty || (m.roleName == s)
  | .arr l => l.isEmpty || l.contains m.roleName

/-- The `'skills'` condition as the (amended) claim describes it. -/
def skillsConditionSpec (m : MemberWithNames) : FilterValue → Bool
  | .null => true
  | .bool b => !b
  | .num n => n == 0
  | .str s => s.isEmpty || m.skillNames.contains s
  | .arr l => l.isEmpty || l.any (fun sk => m.skillNames.contains sk)

/-- The `'availability'` condition as the (amended) claim describes it. -/
def availabilityConditionSpec (m : MemberWithNames) : FilterValue → Bool
  | .null => true
  | .bool b => !b
  | .num n => n == 0
  | .str s => s.isEmpty || (m.availability.toStr == s)
  | .arr l => l.isEmpty || l.contains m.availability.toStr

/-- The `'teams'` condition as the (amended) claim describes it, phrased
directly over the team list (set membership in the member's teams). -/
def teamsConditionSpec (teams : List Team) (m : MemberWithNames) : FilterValue → Bool
  | .null => true
  | .bool b => !b
  | .num n => n == 0
  | .str s => s.isEmpty ||
      teams.any (fun team => (team.id == s) && team.memberIds.contains m.id)
  | .arr l => l.isEmpty ||
      l.any (fun tid => teams.any (fun team => (team.id == tid) && team.memberIds.contains m.id))

theorem roleCondition_eq_spec (m : MemberWithNames) (v : FilterValue) :
    roleCondition m v = roleConditionSpec m v := by
  cases v with
  | null => rfl
  | bool b => cases b <;> rfl
  | num n =>
    by_cases h : n = 0 <;>
      simp [roleCondition, roleConditionSpec, FilterValue.truthy, h, bne]
  | str s =>
    cases he : s.isEmpty <;>
      simp [roleCondition, roleConditionSpec, FilterValue.truthy, he]
  | arr l =>
    cases he : l.isEmpty <;>
      simp [roleCondition, roleConditionSpec, FilterValue.truthy, he]

theorem skillsCondition_eq_spec (m : MemberWithNames) (v : FilterValue) :
    skillsCondition m v = skillsConditionSpec m v := by
  cases v with
  | null => rfl
  | bool b => cases b <;> rfl
  | num n =>
    by_cases h : n = 0 <;>
      simp [skillsCondition, skillsConditionSpec, FilterValue.truthy, h, bne]
  | str s =>
    cases he : s.isEmpty <;>
      simp [skillsCondition, skillsConditionSpec, FilterValue.truthy, he]
  | arr l =>
    cases he : l.isEmpty <;>
      simp [skillsCondition, skillsConditionSpec, FilterValue.truthy, he]

theorem availabilityCondition_eq_spec (m : MemberWithNames) (v : FilterValue) :
    availabilityCondition m v = availabilityConditionSpec m v := by
  cases v with
  | null => rfl
  | bool b => cases b <;> rfl
  | num n =>
    by_cases h : n = 0 <;>
      simp [availabilityCondition, availabilityConditionSpec, FilterValue.truthy, h, bne]
  | str s =>
    cases he : s.isEmpty <;>
      simp [availabilityCondition, availabilityConditionSpec, FilterValue.truthy, he]
  | arr l =>
    cases he : l.isEmpty <;>
      simp [availabilityCondition, availabilityConditionSpec, FilterValue.truthy, he]

theorem idxHas_build_eq_any (teams : List Team) (mid tid : String) :
    idxHas (buildMemberTeamsIndex teams) mid tid =
      teams.any (fun team => (team.id == tid) && team.memberIds.contains mid) := by
  rw [Bool.eq_iff_iff, idxHas_build]
  simp [List.any_eq_true, Bool.and_eq_true, contains_iff_mem]

theorem teamsCondition_eq_spec (teams : List Team) (m : MemberWithNames) (v : FilterValue) :
    teamsCondition (buildMemberTeamsIndex teams) m v = teamsConditionSpec teams m v := by
  cases v with
  | null => rfl
  | bool b =>
    cases b
    · rfl
    · cases hr : rlookup (buildMemberTeamsIndex teams) m.id with
      | none => simp [teamsCondition, teamsConditionSpec, FilterValue.truthy, hr]
      | some ids =>
        by_cases hl : ids.length = 0 <;>
          simp [teamsCondition, teamsConditionSpec, FilterValue.truthy, hr, hl]
  | num n =>
    by_cases h : n = 0
    · simp [teamsCondition, teamsConditionSpec, FilterValue.truthy, h, bne]
    · cases hr : rlookup (buildMemberTeamsIndex teams) m.id with
      | none => simp [teamsCondition, teamsConditionSpec, FilterValue.truthy, h, bne, hr]
      | some ids =>
        by_cases hl : ids.length = 0 <;>
          simp [teamsCondition, teamsConditionSpec, FilterValue.truthy, h, bne, hr, hl]
  | str s =>
    cases he : s.isEmpty
    · rw [teamsCondition_str _ _ _ he, idxHas_build_eq_any]
      simp [teamsConditionSpec, he]
    · simp [teamsCondition, teamsConditionSpec, FilterValue.truthy, he]
  | arr l =>
    cases he : l.isEmpty
    · rw [teamsCondition_arr _ _ _ he]
      simp only [teamsConditionSpec, he, Bool.false_or]
      simp only [idxHas_build_eq_any]
    · simp [teamsCondition, teamsConditionSpec, FilterValue.truthy, he]

theorem filteredItems_char {α : Type} (items : List α)
    (defs : List (FilterDefinition α)) (active : List ActiveFilter) :
    (filteredItems items defs active).Sublist items ∧
    (∀ x, x ∈ filteredItems items defs active ↔ x ∈ items ∧
      ∀ af ∈ active, (match defs.find? (fun d => d.id == af.id) with
        | none => true
        | some d => d.condition x af.value) = true) := by
  by_cases h : active.length = 0
  · have hact : active = [] := List.length_eq_zero.mp h
    subst hact
    simp [filteredItems]
  · constructor
    · simp only [filteredItems, if_neg h]
      exact List.filter_sublist items
    · intro x
      simp only [filteredItems, if_neg h, List.mem_filter, List.all_eq_true]

/-- C2 counterexample to the claim as stated: the scalar value `""` on the
role filter is falsy, so the member whose `roleName` is `"Developer"` is
kept even though equality fails. -/
theorem useFilter_scalar_empty_string_cex :
    filteredItems [({ id := "m1", roleName := "Developer" } : MemberWithNames)]
        (useMemberFilters []) [{ id := "role", value := .str "" }] =
      [{ id := "m1", roleName := "Developer" }] ∧
    ({ id := "m1", roleName := "Developer" } : MemberWithNames).roleName ≠ "" := by
  constructor
  · rfl
  · decide

/-- C2 (amended): `useFilter` keeps, in input order, exactly the items that
pass the condition of every active filter, an active filter with no matching
definition passing everything; and the four member filter conditions follow
the claimed array/any-of, scalar/equality (teams: set-membership) semantics
except that every falsy scalar value — `null`, `false`, `0` or the empty
string — and the empty array pass every member. -/
theorem useFilter_semantics_amended :
    (∀ (α : Type) (items : List α) (defs : List (FilterDefinition α))
        (active : List ActiveFilter),
      (filteredItems items defs active).Sublist items ∧
      (∀ x, x ∈ filteredItems items defs active ↔ x ∈ items ∧
        ∀ af ∈ active, (match defs.find? (fun d => d.id == af.id) with
          | none => true
          | some d => d.condition x af.value) = true)) ∧
    (∀ (teams : List Team) (m : MemberWithNames) (v : FilterValue),
      (useMemberFilters teams).map (fun d => d.condition m v) =
        [roleConditionSpec m v, skillsConditionSpec m v,
         availabilityConditionSpec m v, teamsConditionSpec teams m v]) := by
  refine ⟨fun α items defs active => filteredItems_char items defs active, ?_⟩
  intro teams m v
  simp only [useMemberFilters, List.map_cons, List.map_nil]
  rw [roleCondition_eq_spec, skillsCondition_eq_spec, availabilityCondition_eq_spec,
    teamsCondition_eq_spec]

theorem useFilter_semantics_amended_witness :
    (useMemberFilters []).map (fun d => d.condition { id := "x" } .null) =
      [roleConditionSpec { id := "x" } .null, skillsConditionSpec { id := "x" } .null,
       availabilityConditionSpec { id := "x" } .null,
       teamsConditionSpec [] { id := "x" } .null] :=
  useFilter_semantics_amended.2 [] { id := "x" } .null

/-! ## C4: distribution counts -/

/-- Expression `dist[k] || 0`. -/
def rlookupD (dist : List (String × Nat)) (k : String) : Nat :=
  (rlookup dist k).getD 0

/-- Sum of all counts stored in a distribution record. -/
def sumVals (dist : List (String × Nat)) : Nat :=
  (rvalues dist).sum

theorem rlookup_rinsert_ne {α : Type} (r : List (String × α)) (k : String) (v : α)
    (k' : String) (h : k' ≠ k) : rlookup (rinsert r k v) k' = rlookup r k' := by
  induction r with
  | nil =>
    have hb : ¬ k = k' := fun hc => h hc.symm
    simp [rinsert, rlookup_cons, rlookup_nil, hb]
  | cons hd tl ih =>
    obtain ⟨a, b⟩ := hd
    by_cases ha : a = k
    · subst ha
      have hb : ¬ a = k' := fun hc => h hc.symm
      simp [rinsert, rlookup_cons, hb]
    · have hab : (a == k) = false := by simpa using ha
      by_cases ha' : a = k'
      · subst ha'
        simp [rinsert, hab, rlookup_cons]
      · simp [rinsert, hab, rlookup_cons, ha', ih]

theorem rlookupD_distBump_self (d : List (String × Nat)) (k : String) :
    rlookupD (distBump d k) k = rlookupD d k + 1 := by
  simp [rlookupD, distBump, rlookup_rinsert_self]

theorem rlookupD_distBump_ne (d : List (String × Nat)) (k k' : String) (h : k' ≠ k) :
    rlookupD (distBump d k) k' = rlookupD d k' := by
  simp [rlookupD, distBump, rlookup_rinsert_ne _ _ _ _ h]

theorem sumVals_distBump (d : List (String × Nat)) (k : String) :
    sumVals (distBump d k) = sumVals d + 1 := by
  induction d with
  | nil => simp [distBump, rlookupD, rlookup_nil, rinsert, sumVals, rvalues]
  | cons hd tl ih =>
    obtain ⟨a, b⟩ := hd
    by_cases h : a = k
    · subst h
      simp only [distBump, rlookupD, rlookup_cons, if_pos rfl, Option.getD_some,
        rinsert, beq_self_eq_true, if_true]
      simp [sumVals, rvalues]
      omega
    · have hab : (a == k) = false := by simpa using h
      have hlk : rlookup ((a, b) :: tl) k = rlookup tl k := by
        simp [rlookup_cons, h]
      simp only [distBump, hlk, rinsert, hab, Bool.false_eq_true, if_false]
      have hcons : ∀ (x : Nat) (r : List (String × Nat)),
          sumVals ((a, x) :: r) = x + sumVals r := by
        intro x r; simp [sumVals, rvalues]
      rw [hcons, hcons]
      have ih' : sumVals (rinsert tl k ((rlookup tl k).getD 0 + 1)) = sumVals tl + 1 := by
        simpa [distBump] using ih
      rw [ih']
      omega

theorem foldl_distBump_lookup {β : Type} (f : β → String) (l : List β)
    (d : List (String × Nat)) (name : String) :
    rlookupD (l.foldl (fun dist b => distBump dist (f b)) d) name =
      rlookupD d name + l.countP (fun b => decide (f b = name)) := by
  induction l generalizing d with
  | nil => simp
  | cons x xs ih =>
    rw [List.foldl_cons, ih, List.countP_cons]
    by_cases h : f x = name
    · subst h
      rw [rlookupD_distBump_self]
      simp
      omega
    · rw [rlookupD_distBump_ne _ _ _ (fun hc => h hc.symm)]
      simp [h]

theorem foldl_distBump_sum {β : Type} (f : β → String) (l : List β)
    (d : List (String × Nat)) :
    sumVals (l.foldl (fun dist b => distBump dist (f b)) d) = sumVals d + l.length := by
  induction l generalizing d with
  | nil => simp
  | cons x xs ih =>
    rw [List.foldl_cons, ih, sumVals_distBump]
    simp
    omega

theorem availBump_fields (d : AvailabilityDistribution) (a : Availability) :
    (availBump d a).AVAILABLE = d.AVAILABLE + (if a = .AVAILABLE then 1 else 0) ∧
    (availBump d a).BUSY = d.BUSY + (if a = .BUSY then 1 else 0) ∧
    (availBump d a).UNAVAILABLE = d.UNAVAILABLE + (if a = .UNAVAILABLE then 1 else 0) := by
  cases a <;> simp [availBump]

theorem foldl_availBump (l : List Member) (d : AvailabilityDistribution) :
    (l.foldl (fun d m => availBump d m.availability) d).AVAILABLE =
        d.AVAILABLE + l.countP (fun m => decide (m.availability = .AVAILABLE)) ∧
    (l.foldl (fun d m => availBump d m.availability) d).BUSY =
        d.BUSY + l.countP (fun m => decide (m.availability = .BUSY)) ∧
    (l.foldl (fun d m => availBump d m.availability) d).UNAVAILABLE =
        d.UNAVAILABLE + l.countP (fun m => decide (m.availability = .UNAVAILABLE)) := by
  induction l generalizing d with
  | nil => simp
  | cons x xs ih =>
    rw [List.foldl_cons]
    obtain ⟨ihA, ihB, ihU⟩ := ih (availBump d x.availability)
    obtain ⟨hA, hB, hU⟩ := availBump_fields d x.availability
    refine ⟨?_, ?_, ?_⟩ <;>
      simp only [List.countP_cons, ihA, ihB, ihU, hA, hB, hU] <;>
      (by_cases h : x.availability = .AVAILABLE <;>
       by_cases h2 : x.availability = .BUSY <;>
       by_cases h3 : x.availability = .UNAVAILABLE <;>
       simp [h, h2, h3] <;> omega)

/-- C4 counterexample to the claim as stated: in a state whose only member
references a role whose name is the empty string, the claim-side resolved
role name is `""` (the role exists), yet `calculateStatistics` counts the
member under `'Unknown'` (JS `|| 'Unknown'` also fires on the falsy empty
string), so the distribution holds `0` under `""`.
The state below is the concrete input: one member referencing one role whose
name is `""`. -/
def cexRoleState : AppState :=
  { members := [("m1", { id := "m1", roleId := "r1" })],
    roles := some [("r1", { id := "r1", name := "" })] }

/-- C4 counterexample (see `cexRoleState`): the member resolves, per the
claim, to role name `""`, yet the computed distribution counts it under
`'Unknown'` and stores nothing under `""`. -/
theorem roleDistribution_empty_name_cex :
    (rlookupD (calculateStatistics cexRoleState).roleDistribution "" = 0) ∧
    (rlookupD (calculateStatistics cexRoleState).roleDistribution "Unknown" = 1) ∧
    ((rvalues cexRoleState.members).countP
        (fun m => decide ((((rlookup (cexRoleState.roles.getD []) m.roleId).map
          (·.name)).getD "Unknown" = ""))) = 1) := by
  refine ⟨?_, ?_, ?_⟩ <;> decide

/-- C4 (amended): the availability distribution counts members per
availability and its three counts sum to `totalMembers`; the role
distribution counts members per resolved role name — where a member whose
roleId resolves to no role, *or to a role whose name is the empty string*,
counts under `'Unknown'` — and its counts also sum to `totalMembers`. -/
theorem distribution_counts_amended (s : AppState) :
    ((calculateStatistics s).availabilityDistribution.AVAILABLE =
      (rvalues s.members).countP (fun m => decide (m.availability = .AVAILABLE))) ∧
    ((calculateStatistics s).availabilityDistribution.BUSY =
      (rvalues s.members).countP (fun m => decide (m.availability = .BUSY))) ∧
    ((calculateStatistics s).availabilityDistribution.UNAVAILABLE =
      (rvalues s.members).countP (fun m => decide (m.availability = .UNAVAILABLE))) ∧
    ((calculateStatistics s).availabilityDistribution.AVAILABLE +
     (calculateStatistics s).availabilityDistribution.BUSY +
     (calculateStatistics s).availabilityDistribution.UNAVAILABLE =
      (calculateStatistics s).totalMembers) ∧
    (∀ name, rlookupD (calculateStatistics s).roleDistribution name =
      (rvalues s.members).countP (fun m =>
        decide (resolveName ((rlookup (s.roles.getD []) m.roleId).map (·.name)) = name))) ∧
    (sumVals (calculateStatistics s).roleDistribution = (calculateStatistics s).totalMembers) := by
  have havail := foldl_availBump (rvalues s.members)
    { AVAILABLE := 0, BUSY := 0, UNAVAILABLE := 0 }
  obtain ⟨hA, hB, hU⟩ := havail
  have hpart : (rvalues s.members).countP (fun m => decide (m.availability = .AVAILABLE)) +
      (rvalues s.members).countP (fun m => decide (m.availability = .BUSY)) +
      (rvalues s.members).countP (fun m => decide (m.availability = .UNAVAILABLE)) =
      (rvalues s.members).length := by
    induction rvalues s.members with
    | nil => simp
    | cons x xs ih =>
      simp only [List.countP_cons, List.length_cons]
      cases hx : x.availability <;> simp [hx] <;> omega
  refine ⟨?_, ?_, ?_, ?_, ?_, ?_⟩
  · simpa [calculateStatistics] using hA
  · simpa [calculateStatistics] using hB
  · simpa [calculateStatistics] using hU
  · simp only [calculateStatistics]
    rw [hA, hB, hU]
    simpa using hpart
  · intro name
    simp only [calculateStatistics]
    rw [foldl_distBump_lookup (fun member : Member =>
      resolveName ((rlookup (s.roles.getD []) member.roleId).map (·.name)))]
    simp [rlookupD, rlookup_nil]
  · simp only [calculateStatistics]
    rw [foldl_distBump_sum (fun member : Member =>
      resolveName ((rlookup (s.roles.getD []) member.roleId).map (·.name)))]
    simp [sumVals, rvalues]

/-! ## C5: coverage percentages -/

/-- A function of the accumulator preserved by every step of a fold is
preserved by the whole fold. -/
theorem foldl_invariant {β γ σ : Type} (step : σ → β → σ) (g : σ → γ)
    (hg : ∀ s b, g (step s b) = g s) :
    ∀ (l : List β) (s : σ), g (l.foldl step s) = g s := by
  intro l
  induction l with
  | nil => intro s; rfl
  | cons x xs ih => intro s; rw [List.foldl_cons, ih, hg]

/-- The role-membership loop changes only the three role lists. -/
theorem roleMemberStep_frame (mrec : List (String × Member)) (team : Team)
    (acc : TargetAcc) (mid : String) :
    ((roleMemberStep mrec team acc mid).teamsWithTargets,
     (roleMemberStep mrec team acc mid).teamsAtTargetSize,
     (roleMemberStep mrec team acc mid).teamsBelowTargetSize,
     (roleMemberStep mrec team acc mid).teamsAboveTargetSize,
     (roleMemberStep mrec team acc mid).membersInSkillTargetedTeams,
     (roleMemberStep mrec team acc mid).membersMatchingTargetSkills,
     (roleMemberStep mrec team acc mid).membersNotMatchingTargetSkills) =
    (acc.teamsWithTargets, acc.teamsAtTargetSize, acc.teamsBelowTargetSize,
     acc.teamsAboveTargetSize, acc.membersInSkillTargetedTeams,
     acc.membersMatchingTargetSkills, acc.membersNotMatchingTargetSkills) := by
  cases h : rlookup mrec mid with
  | none => simp [roleMemberStep, h]
  | some mem =>
    simp only [roleMemberStep, h]
    split <;> simp

/-- The skill-membership loop changes only the three skill lists. -/
theorem skillMemberStep_frame (mrec : List (String × Member)) (team : Team)
    (acc : TargetAcc) (mid : String) :
    ((skillMemberStep mrec team acc mid).teamsWithTargets,
     (skillMemberStep mrec team acc mid).teamsAtTargetSize,
     (skillMemberStep mrec team acc mid).teamsBelowTargetSize,
     (skillMemberStep mrec team acc mid).teamsAboveTargetSize,
     (skillMemberStep mrec team acc mid).membersInRoleTargetedTeams,
     (skillMemberStep mrec team acc mid).membersMatchingTargetRoles,
     (skillMemberStep mrec team acc mid).membersNotMatchingTargetRoles) =
    (acc.teamsWithTargets, acc.teamsAtTargetSize, acc.teamsBelowTargetSize,
     acc.teamsAboveTargetSize, acc.membersInRoleTargetedTeams,
     acc.membersMatchingTargetRoles, acc.membersNotMatchingTargetRoles) := by
  cases h : rlookup mrec mid with
  | none => simp [skillMemberStep, h]
  | some mem =>
    simp only [skillMemberStep, h]
    split <;> simp

/-- The counting stage changes no membership list. -/
theorem targetCountStep_frame (acc : TargetAcc) (team : Team) :
    ((targetCountStep acc team).membersInRoleTargetedTeams,
     (targetCountStep acc team).membersMatchingTargetRoles,
     (targetCountStep acc team).membersNotMatchingTargetRoles,
     (targetCountStep acc team).membersInSkillTargetedTeams,
     (targetCountStep acc team).membersMatchingTargetSkills,
     (targetCountStep acc team).membersNotMatchingTargetSkills) =
    (acc.membersInRoleTargetedTeams, acc.membersMatchingTargetRoles,
     acc.membersNotMatchingTargetRoles, acc.membersInSkillTargetedTeams,
     acc.membersMatchingTargetSkills, acc.membersNotMatchingTargetSkills) := by
  simp only [targetCountStep]
  split <;> split <;> (try split) <;> (try split) <;> simp

/-- The size-bucket sum grows by one exactly when the team has a target
size; `teamsWithTargets` aside, the counting stage touches nothing else. -/
theorem targetCountStep_sizeSum (acc : TargetAcc) (team : Team) :
    (targetCountStep acc team).teamsAtTargetSize +
      (targetCountStep acc team).teamsBelowTargetSize +
      (targetCountStep acc team).teamsAboveTargetSize =
    acc.teamsAtTargetSize + acc.teamsBelowTargetSize + acc.teamsAboveTargetSize +
      (if team.targetSize.isSome then 1 else 0) := by
  simp only [targetCountStep]
  cases hts : team.targetSize with
  | none => simp only [hts]; split <;> simp
  | some ts =>
    simp only [hts]
    split <;> (try split) <;> (try split) <;> simp_all <;> omega

theorem foldl_roleMemberStep_inRole (mrec : List (String × Member)) (team : Team)
    (mids : List String) (acc : TargetAcc) (x : String) :
    x ∈ (mids.foldl (roleMemberStep mrec team) acc).membersInRoleTargetedTeams ↔
      x ∈ acc.membersInRoleTargetedTeams ∨
        (x ∈ mids ∧ (rlookup mrec x).isSome = true) := by
  induction mids generalizing acc with
  | nil => simp
  | cons y ys ih =>
    rw [List.foldl_cons, ih]
    have hstep : x ∈ (roleMemberStep mrec team acc y).membersInRoleTargetedTeams ↔
        x ∈ acc.membersInRoleTargetedTeams ∨ (x = y ∧ (rlookup mrec y).isSome = true) := by
      cases h : rlookup mrec y with
      | none => simp [roleMemberStep, h]
      | some mem =>
        simp only [roleMemberStep, h]
        split <;> simp [mem_sinsert]
    rw [hstep]
    simp only [List.mem_cons]
    constructor
    · rintro ((h | ⟨rfl, hs⟩) | ⟨hys, hs⟩)
      · exact Or.inl h
      · exact Or.inr ⟨Or.inl rfl, hs⟩
      · exact Or.inr ⟨Or.inr hys, hs⟩
    · rintro (h | ⟨rfl | hys, hs⟩)
      · exact Or.inl (Or.inl h)
      · exact Or.inl (Or.inr ⟨rfl, hs⟩)
      · exact Or.inr ⟨hys, hs⟩

theorem foldl_roleMemberStep_match (mrec : List (String × Member)) (team : Team)
    (mids : List String) (acc : TargetAcc) (x : String) :
    x ∈ (mids.foldl (roleMemberStep mrec team) acc).membersMatchingTargetRoles ↔
      x ∈ acc.membersMatchingTargetRoles ∨
        (x ∈ mids ∧ ∃ mem, rlookup mrec x = some mem ∧
          mem.roleId ∈ team.targetRoles.getD []) := by
  induction mids generalizing acc with
  | nil => simp
  | cons y ys ih =>
    rw [List.foldl_cons, ih]
    have hstep : x ∈ (roleMemberStep mrec team acc y).membersMatchingTargetRoles ↔
        x ∈ acc.membersMatchingTargetRoles ∨
          (x = y ∧ ∃ mem, rlookup mrec y = some mem ∧
            mem.roleId ∈ team.targetRoles.getD []) := by
      cases h : rlookup mrec y with
      | none => simp [roleMemberStep, h]
      | some mem =>
        simp only [roleMemberStep, h]
        split
        · rename_i hc
          have hmem : mem.roleId ∈ team.targetRoles.getD [] :=
            (contains_iff_mem _ _).mp hc
          simp [mem_sinsert, hmem]
        · rename_i hc
          have hmem : mem.roleId ∉ team.targetRoles.getD [] := fun hm =>
            hc ((contains_iff_mem _ _).mpr hm)
          simp [hmem]
    rw [hstep]
    simp only [List.mem_cons]
    constructor
    · rintro ((h | ⟨rfl, hs⟩) | ⟨hys, hs⟩)
      · exact Or.inl h
      · exact Or.inr ⟨Or.inl rfl, hs⟩
      · exact Or.inr ⟨Or.inr hys, hs⟩
    · rintro (h | ⟨rfl | hys, hs⟩)
      · exact Or.inl (Or.inl h)
      · exact Or.inl (Or.inr ⟨rfl, hs⟩)
      · exact Or.inr ⟨hys, hs⟩

theorem foldl_skillMemberStep_inSkill (mrec : List (String × Member)) (team : Team)
    (mids : List String) (acc : TargetAcc) (x : String) :
    x ∈ (mids.foldl (skillMemberStep mrec team) acc).membersInSkillTargetedTeams ↔
      x ∈ acc.membersInSkillTargetedTeams ∨
        (x ∈ mids ∧ (rlookup mrec x).isSome = true) := by
  induction mids generalizing acc with
  | nil => simp
  | cons y ys ih =>
    rw [List.foldl_cons, ih]
    have hstep : x ∈ (skillMemberStep mrec team acc y).membersInSkillTargetedTeams ↔
        x ∈ acc.membersInSkillTargetedTeams ∨ (x = y ∧ (rlookup mrec y).isSome = true) := by
      cases h : rlookup mrec y with
      | none => simp [skillMemberStep, h]
      | some mem =>
        simp only [skillMemberStep, h]
        split <;> simp [mem_sinsert]
    rw [hstep]
    simp only [List.mem_cons]
    constructor
    · rintro ((h | ⟨rfl, hs⟩) | ⟨hys, hs⟩)
      · exact Or.inl h
      · exact Or.inr ⟨Or.inl rfl, hs⟩
      · exact Or.inr ⟨Or.inr hys, hs⟩
    · rintro (h | ⟨rfl | hys, hs⟩)
      · exact Or.inl (Or.inl h)
      · exact Or.inl (Or.inr ⟨rfl, hs⟩)
      · exact Or.inr ⟨hys, hs⟩

theorem foldl_skillMemberStep_match (mrec : List (String × Member)) (team : Team)
    (mids : List String) (acc : TargetAcc) (x : String) :
    x ∈ (mids.foldl (skillMemberStep mrec team) acc).membersMatchingTargetSkills ↔
      x ∈ acc.membersMatchingTargetSkills ∨
        (x ∈ mids ∧ ∃ mem, rlookup mrec x = some mem ∧
          ∃ sk ∈ mem.skillIds, sk ∈ team.targetSkills.getD []) := by
  induction mids generalizing acc with
  | nil => simp
  | cons y ys ih =>
    rw [List.foldl_cons, ih]
    have hstep : x ∈ (skillMemberStep mrec team acc y).membersMatchingTargetSkills ↔
        x ∈ acc.membersMatchingTargetSkills ∨
          (x = y ∧ ∃ mem, rlookup mrec y = some mem ∧
            ∃ sk ∈ mem.skillIds, sk ∈ team.targetSkills.getD []) := by
      cases h : rlookup mrec y with
      | none => simp [skillMemberStep, h]
      | some mem =>
        simp only [skillMemberStep, h]
        split
        · rename_i hc
          have hmem : ∃ sk ∈ mem.skillIds, sk ∈ team.targetSkills.getD [] := by
            rcases List.any_eq_true.mp hc with ⟨sk, hsk, hin⟩
            exact ⟨sk, hsk, (contains_iff_mem _ _).mp hin⟩
          simp [mem_sinsert, hmem]
        · rename_i hc
          have hmem : ¬ ∃ sk ∈ mem.skillIds, sk ∈ team.targetSkills.getD [] := by
            rintro ⟨sk, hsk, hin⟩
            exact hc (List.any_eq_true.mpr ⟨sk, hsk, (contains_iff_mem _ _).mpr hin⟩)
          simp [hmem]
    rw [hstep]
    simp only [List.mem_cons]
    constructor
    · rintro ((h | ⟨rfl, hs⟩) | ⟨hys, hs⟩)
      · exact Or.inl h
      · exact Or.inr ⟨Or.inl rfl, hs⟩
      · exact Or.inr ⟨Or.inr hys, hs⟩
    · rintro (h | ⟨rfl | hys, hs⟩)
      · exact Or.inl (Or.inl h)
      · exact Or.inl (Or.inr ⟨rfl, hs⟩)
      · exact Or.inr ⟨hys, hs⟩

theorem roleMemberStep_frame' (mrec : List (String × Member)) (team : Team)
    (acc : TargetAcc) (mid : String) :
    (roleMemberStep mrec team acc mid).teamsWithTargets = acc.teamsWithTargets ∧
    (roleMemberStep mrec team acc mid).teamsAtTargetSize = acc.teamsAtTargetSize ∧
    (roleMemberStep mrec team acc mid).teamsBelowTargetSize = acc.teamsBelowTargetSize ∧
    (roleMemberStep mrec team acc mid).teamsAboveTargetSize = acc.teamsAboveTargetSize ∧
    (roleMemberStep mrec team acc mid).membersInSkillTargetedTeams
      = acc.membersInSkillTargetedTeams ∧
    (roleMemberStep mrec team acc mid).membersMatchingTargetSkills
      = acc.membersMatchingTargetSkills ∧
    (roleMemberStep mrec team acc mid).membersNotMatchingTargetSkills
      = acc.membersNotMatchingTargetSkills := by
  have h := roleMemberStep_frame mrec team acc mid
  simpa only [Prod.mk.injEq] using h

theorem skillMemberStep_frame' (mrec : List (String × Member)) (team : Team)
    (acc : TargetAcc) (mid : String) :
    (skillMemberStep mrec team acc mid).teamsWithTargets = acc.teamsWithTargets ∧
    (skillMemberStep mrec team acc mid).teamsAtTargetSize = acc.teamsAtTargetSize ∧
    (skillMemberStep mrec team acc mid).teamsBelowTargetSize = acc.teamsBelowTargetSize ∧
    (skillMemberStep mrec team acc mid).teamsAboveTargetSize = acc.teamsAboveTargetSize ∧
    (skillMemberStep mrec team acc mid).membersInRoleTargetedTeams
      = acc.membersInRoleTargetedTeams ∧
    (skillMemberStep mrec team acc mid).membersMatchingTargetRoles
      = acc.membersMatchingTargetRoles ∧
    (skillMemberStep mrec team acc mid).membersNotMatchingTargetRoles
      = acc.membersNotMatchingTargetRoles := by
  have h := skillMemberStep_frame mrec team acc mid
  simpa only [Prod.mk.injEq] using h

theorem targetCountStep_frame' (acc : TargetAcc) (team : Team) :
    (targetCountStep acc team).membersInRoleTargetedTeams
      = acc.membersInRoleTargetedTeams ∧
    (targetCountStep acc team).membersMatchingTargetRoles
      = acc.membersMatchingTargetRoles ∧
    (targetCountStep acc team).membersNotMatchingTargetRoles
      = acc.membersNotMatchingTargetRoles ∧
    (targetCountStep acc team).membersInSkillTargetedTeams
      = acc.membersInSkillTargetedTeams ∧
    (targetCountStep acc team).membersMatchingTargetSkills
      = acc.membersMatchingTargetSkills ∧
    (targetCountStep acc team).membersNotMatchingTargetSkills
      = acc.membersNotMatchingTargetSkills := by
  have h := targetCountStep_frame acc team
  simpa only [Prod.mk.injEq] using h

/-- Membership characterization of `membersInRoleTargetedTeams` across one
`teams.forEach` body. -/
theorem teamStep_inRole (mrec : List (String × Member)) (acc : TargetAcc) (team : Team)
    (x : String) :
    x ∈ (teamStep mrec acc team).membersInRoleTargetedTeams ↔
      x ∈ acc.membersInRoleTargetedTeams ∨
        (team.roleTargeted = true ∧ x ∈ team.memberIds ∧
          (rlookup mrec x).isSome = true) := by
  have hskillkeep : ∀ (a : TargetAcc),
      (team.memberIds.foldl (skillMemberStep mrec team) a).membersInRoleTargetedTeams
        = a.membersInRoleTargetedTeams :=
    fun a => foldl_invariant _ (fun s => s.membersInRoleTargetedTeams)
      (fun s b => (skillMemberStep_frame' mrec team s b).2.2.2.2.1) team.memberIds a
  have hcount := (targetCountStep_frame' acc team).1
  simp only [teamStep]
  by_cases hst : team.skillTargeted = true <;> by_cases hrt : team.roleTargeted = true
  · rw [if_pos hst, if_pos hrt, hskillkeep, foldl_roleMemberStep_inRole, hcount]
    simp [hrt]
  · rw [if_pos hst, if_neg hrt, hskillkeep, hcount]
    simp [hrt]
  · rw [if_neg hst, if_pos hrt, foldl_roleMemberStep_inRole, hcount]
    simp [hrt]
  · rw [if_neg hst, if_neg hrt, hcount]
    simp [hrt]

/-- Membership characterization of `membersMatchingTargetRoles` across one
`teams.forEach` body. -/
theorem teamStep_matchRole (mrec : List (String × Member)) (acc : TargetAcc) (team : Team)
    (x : String) :
    x ∈ (teamStep mrec acc team).membersMatchingTargetRoles ↔
      x ∈ acc.membersMatchingTargetRoles ∨
        (team.roleTargeted = true ∧ x ∈ team.memberIds ∧
          ∃ mem, rlookup mrec x = some mem ∧ mem.roleId ∈ team.targetRoles.getD []) := by
  have hskillkeep : ∀ (a : TargetAcc),
      (team.memberIds.foldl (skillMemberStep mrec team) a).membersMatchingTargetRoles
        = a.membersMatchingTargetRoles :=
    fun a => foldl_invariant _ (fun s => s.membersMatchingTargetRoles)
      (fun s b => (skillMemberStep_frame' mrec team s b).2.2.2.2.2.1) team.memberIds a
  have hcount := (targetCountStep_frame' acc team).2.1
  simp only [teamStep]
  by_cases hst : team.skillTargeted = true <;> by_cases hrt : team.roleTargeted = true
  · rw [if_pos hst, if_pos hrt, hskillkeep, foldl_roleMemberStep_match, hcount]
    simp [hrt]
  · rw [if_pos hst, if_neg hrt, hskillkeep, hcount]
    simp [hrt]
  · rw [if_neg hst, if_pos hrt, foldl_roleMemberStep_match, hcount]
    simp [hrt]
  · rw [if_neg hst, if_neg hrt, hcount]
    simp [hrt]

/-- Membership characterization of `membersInSkillTargetedTeams` across one
`teams.forEach` body. -/
theorem teamStep_inSkill (mrec : List (String × Member)) (acc : TargetAcc) (team : Team)
    (x : String) :
    x ∈ (teamStep mrec acc team).membersInSkillTargetedTeams ↔
      x ∈ acc.membersInSkillTargetedTeams ∨
        (team.skillTargeted = true ∧ x ∈ team.memberIds ∧
          (rlookup mrec x).isSome = true) := by
  have hrolekeep : ∀ (a : TargetAcc),
      (team.memberIds.foldl (roleMemberStep mrec team) a).membersInSkillTargetedTeams
        = a.membersInSkillTargetedTeams :=
    fun a => foldl_invariant _ (fun s => s.membersInSkillTargetedTeams)
      (fun s b => (roleMemberStep_frame' mrec team s b).2.2.2.2.1) team.memberIds a
  have hcount := (targetCountStep_frame' acc team).2.2.2.1
  simp only [teamStep]
  by_cases hst : team.skillTargeted = true <;> by_cases hrt : team.roleTargeted = true
  · rw [if_pos hst, foldl_skillMemberStep_inSkill, if_pos hrt, hrolekeep, hcount]
    simp [hst]
  · rw [if_pos hst, foldl_skillMemberStep_inSkill, if_neg hrt, hcount]
    simp [hst]
  · rw [if_neg hst, if_pos hrt, hrolekeep, hcount]
    simp [hst]
  · rw [if_neg hst, if_neg hrt, hcount]
    simp [hst]

/-- Membership characterization of `membersMatchingTargetSkills` across one
`teams.forEach` body. -/
theorem teamStep_matchSkill (mrec : List (String × Member)) (acc : TargetAcc) (team : Team)
    (x : String) :
    x ∈ (teamStep mrec acc team).membersMatchingTargetSkills ↔
      x ∈ acc.membersMatchingTargetSkills ∨
        (team.skillTargeted = true ∧ x ∈ team.memberIds ∧
          ∃ mem, rlookup mrec x = some mem ∧
            ∃ sk ∈ mem.skillIds, sk ∈ team.targetSkills.getD []) := by
  have hrolekeep : ∀ (a : TargetAcc),
      (team.memberIds.foldl (roleMemberStep mrec team) a).membersMatchingTargetSkills
        = a.membersMatchingTargetSkills :=
    fun a => foldl_invariant _ (fun s => s.membersMatchingTargetSkills)
      (fun s b => (roleMemberStep_frame' mrec team s b).2.2.2.2.2.1) team.memberIds a
  have hcount := (targetCountStep_frame' acc team).2.2.2.2.1
  simp only [teamStep]
  by_cases hst : team.skillTargeted = true <;> by_cases hrt : team.roleTargeted = true
  · rw [if_pos hst, foldl_skillMemberStep_match, if_pos hrt, hrolekeep, hcount]
    simp [hst]
  · rw [if_pos hst, foldl_skillMemberStep_match, if_neg hrt, hcount]
    simp [hst]
  · rw [if_neg hst, if_pos hrt, hrolekeep, hcount]
    simp [hst]
  · rw [if_neg hst, if_neg hrt, hcount]
    simp [hst]

/-- The size-bucket sum across one `teams.forEach` body. -/
theorem teamStep_sizeSum (mrec : List (String × Member)) (acc : TargetAcc) (team : Team) :
    (teamStep mrec acc team).teamsAtTargetSize +
      (teamStep mrec acc team).teamsBelowTargetSize +
      (teamStep mrec acc team).teamsAboveTargetSize =
    acc.teamsAtTargetSize + acc.teamsBelowTargetSize + acc.teamsAboveTargetSize +
      (if team.targetSize.isSome then 1 else 0) := by
  have hrolekeep : ∀ (a : TargetAcc),
      ((team.memberIds.foldl (roleMemberStep mrec team) a).teamsAtTargetSize,
       (team.memberIds.foldl (roleMemberStep mrec team) a).teamsBelowTargetSize,
       (team.memberIds.foldl (roleMemberStep mrec team) a).teamsAboveTargetSize) =
      (a.teamsAtTargetSize, a.teamsBelowTargetSize, a.teamsAboveTargetSize) :=
    fun a => foldl_invariant _
      (fun s => (s.teamsAtTargetSize, s.teamsBelowTargetSize, s.teamsAboveTargetSize))
      (fun s b => by
        obtain ⟨-, h1, h2, h3, -⟩ := roleMemberStep_frame' mrec team s b
        simp [h1, h2, h3]) team.memberIds a
  have hskillkeep : ∀ (a : TargetAcc),
      ((team.memberIds.foldl (skillMemberStep mrec team) a).teamsAtTargetSize,
       (team.memberIds.foldl (skillMemberStep mrec team) a).teamsBelowTargetSize,
       (team.memberIds.foldl (skillMemberStep mrec team) a).teamsAboveTargetSize) =
      (a.teamsAtTargetSize, a.teamsBelowTargetSize, a.teamsAboveTargetSize) :=
    fun a => foldl_invariant _
      (fun s => (s.teamsAtTargetSize, s.teamsBelowTargetSize, s.teamsAboveTargetSize))
      (fun s b => by
        obtain ⟨-, h1, h2, h3, -⟩ := skillMemberStep_frame' mrec team s b
        simp [h1, h2, h3]) team.memberIds a
  have hc := targetCountStep_sizeSum acc team
  simp only [teamStep]
  by_cases hst : team.skillTargeted = true <;> by_cases hrt : team.roleTargeted = true
  · rw [if_pos hst, if_pos hrt]
    have h1 := hskillkeep
      (team.memberIds.foldl (roleMemberStep mrec team) (targetCountStep acc team))
    have h2 := hrolekeep (targetCountStep acc team)
    simp only [Prod.mk.injEq] at h1 h2
    obtain ⟨a1, b1, c1⟩ := h1
    obtain ⟨a2, b2, c2⟩ := h2
    rw [a1, b1, c1, a2, b2, c2, hc]
  · rw [if_pos hst, if_neg hrt]
    have h1 := hskillkeep (targetCountStep acc team)
    simp only [Prod.mk.injEq] at h1
    obtain ⟨a1, b1, c1⟩ := h1
    rw [a1, b1, c1, hc]
  · rw [if_neg hst, if_pos hrt]
    have h2 := hrolekeep (targetCountStep acc team)
    simp only [Prod.mk.injEq] at h2
    obtain ⟨a2, b2, c2⟩ := h2
    rw [a2, b2, c2, hc]
  · rw [if_neg hst, if_neg hrt]
    exact hc

/-- A list-valued component kept duplicate-free by every step stays
duplicate-free through a fold. -/
theorem foldl_nodup_pres {σ β : Type} (step : σ → β → σ) (g : σ → List String)
    (hg : ∀ s b, (g s).Nodup → (g (step s b)).Nodup) :
    ∀ (l : List β) (s : σ), (g s).Nodup → (g (l.foldl step s)).Nodup := by
  intro l
  induction l with
  | nil => intro s hs; exact hs
  | cons x xs ih => intro s hs; rw [List.foldl_cons]; exact ih _ (hg s x hs)

theorem roleMemberStep_nodup (mrec : List (String × Member)) (team : Team)
    (acc : TargetAcc) (mid : String) :
    (acc.membersInRoleTargetedTeams.Nodup →
      (roleMemberStep mrec team acc mid).membersInRoleTargetedTeams.Nodup) ∧
    (acc.membersMatchingTargetRoles.Nodup →
      (roleMemberStep mrec team acc mid).membersMatchingTargetRoles.Nodup) := by
  cases h : rlookup mrec mid with
  | none => simp [roleMemberStep, h]
  | some mem =>
    simp only [roleMemberStep, h]
    split
    · exact ⟨fun hn => nodup_sinsert _ _ hn, fun hn => nodup_sinsert _ _ hn⟩
    · exact ⟨fun hn => nodup_sinsert _ _ hn, fun hn => hn⟩

theorem skillMemberStep_nodup (mrec : List (String × Member)) (team : Team)
    (acc : TargetAcc) (mid : String) :
    (acc.membersInSkillTargetedTeams.Nodup →
      (skillMemberStep mrec team acc mid).membersInSkillTargetedTeams.Nodup) ∧
    (acc.membersMatchingTargetSkills.Nodup →
      (skillMemberStep mrec team acc mid).membersMatchingTargetSkills.Nodup) := by
  cases h : rlookup mrec mid with
  | none => simp [skillMemberStep, h]
  | some mem =>
    simp only [skillMemberStep, h]
    split
    · exact ⟨fun hn => nodup_sinsert _ _ hn, fun hn => nodup_sinsert _ _ hn⟩
    · exact ⟨fun hn => nodup_sinsert _ _ hn, fun hn => hn⟩

theorem teamStep_nodup_inRole (mrec : List (String × Member)) (acc : TargetAcc)
    (team : Team) (hn : acc.membersInRoleTargetedTeams.Nodup) :
    (teamStep mrec acc team).membersInRoleTargetedTeams.Nodup := by
  have hcount := (targetCountStep_frame' acc team).1
  have hrole : ∀ (a : TargetAcc), a.membersInRoleTargetedTeams.Nodup →
      (team.memberIds.foldl (roleMemberStep mrec team) a).membersInRoleTargetedTeams.Nodup :=
    fun a ha => foldl_nodup_pres _ (fun s => s.membersInRoleTargetedTeams)
      (fun s b => (roleMemberStep_nodup mrec team s b).1) team.memberIds a ha
  have hskill : ∀ (a : TargetAcc),
      (team.memberIds.foldl (skillMemberStep mrec team) a).membersInRoleTargetedTeams
        = a.membersInRoleTargetedTeams :=
    fun a => foldl_invariant _ (fun s => s.membersInRoleTargetedTeams)
      (fun s b => (skillMemberStep_frame' mrec team s b).2.2.2.2.1) team.memberIds a
  simp only [teamStep]
  by_cases hst : team.skillTargeted = true <;> by_cases hrt : team.roleTargeted = true
  · rw [if_pos hst, if_pos hrt, hskill]
    exact hrole _ (by rw [hcount]; exact hn)
  · rw [if_pos hst, if_neg hrt, hskill, hcount]; exact hn
  · rw [if_neg hst, if_pos hrt]
    exact hrole _ (by rw [hcount]; exact hn)
  · rw [if_neg hst, if_neg hrt, hcount]; exact hn

theorem teamStep_nodup_matchRole (mrec : List (String × Member)) (acc : TargetAcc)
    (team : Team) (hn : acc.membersMatchingTargetRoles.Nodup) :
    (teamStep mrec acc team).membersMatchingTargetRoles.Nodup := by
  have hcount := (targetCountStep_frame' acc team).2.1
  have hrole : ∀ (a : TargetAcc), a.membersMatchingTargetRoles.Nodup →
      (team.memberIds.foldl (roleMemberStep mrec team) a).membersMatchingTargetRoles.Nodup :=
    fun a ha => foldl_nodup_pres _ (fun s => s.membersMatchingTargetRoles)
      (fun s b => (roleMemberStep_nodup mrec team s b).2) team.memberIds a ha
  have hskill : ∀ (a : TargetAcc),
      (team.memberIds.foldl (skillMemberStep mrec team) a).membersMatchingTargetRoles
        = a.membersMatchingTargetRoles :=
    fun a => foldl_invariant _ (fun s => s.membersMatchingTargetRoles)
      (fun s b => (skillMemberStep_frame' mrec team s b).2.2.2.2.2.1) team.memberIds a
  simp only [teamStep]
  by_cases hst : team.skillTargeted = true <;> by_cases hrt : team.roleTargeted = true
  · rw [if_pos hst, if_pos hrt, hskill]
    exact hrole _ (by rw [hcount]; exact hn)
  · rw [if_pos hst, if_neg hrt, hskill, hcount]; exact hn
  · rw [if_neg hst, if_pos hrt]
    exact hrole _ (by rw [hcount]; exact hn)
  · rw [if_neg hst, if_neg hrt, hcount]; exact hn

theorem teamStep_nodup_inSkill (mrec : List (String × Member)) (acc : TargetAcc)
    (team : Team) (hn : acc.membersInSkillTargetedTeams.Nodup) :
    (teamStep mrec acc team).membersInSkillTargetedTeams.Nodup := by
  have hcount := (targetCountStep_frame' acc team).2.2.2.1
  have hskillpres : ∀ (a : TargetAcc), a.membersInSkillTargetedTeams.Nodup →
      (team.memberIds.foldl (skillMemberStep mrec team) a).membersInSkillTargetedTeams.Nodup :=
    fun a ha => foldl_nodup_pres _ (fun s => s.membersInSkillTargetedTeams)
      (fun s b => (skillMemberStep_nodup mrec team s b).1) team.memberIds a ha
  have hrolekeep : ∀ (a : TargetAcc),
      (team.memberIds.foldl (roleMemberStep mrec team) a).membersInSkillTargetedTeams
        = a.membersInSkillTargetedTeams :=
    fun a => foldl_invariant _ (fun s => s.membersInSkillTargetedTeams)
      (fun s b => (roleMemberStep_frame' mrec team s b).2.2.2.2.1) team.memberIds a
  simp only [teamStep]
  by_cases hst : team.skillTargeted = true <;> by_cases hrt : team.roleTargeted = true
  · rw [if_pos hst, if_pos hrt]
    exact hskillpres _ (by rw [hrolekeep, hcount]; exact hn)
  · rw [if_pos hst, if_neg hrt]
    exact hskillpres _ (by rw [hcount]; exact hn)
  · rw [if_neg hst, if_pos hrt, hrolekeep, hcount]; exact hn
  · rw [if_neg hst, if_neg hrt, hcount]; exact hn

theorem teamStep_nodup_matchSkill (mrec : List (String × Member)) (acc : TargetAcc)
    (team : Team) (hn : acc.membersMatchingTargetSkills.Nodup) :
    (teamStep mrec acc team).membersMatchingTargetSkills.Nodup := by
  have hcount := (targetCountStep_frame' acc team).2.2.2.2.1
  have hskillpres : ∀ (a : TargetAcc), a.membersMatchingTargetSkills.Nodup →
      (team.memberIds.foldl (skillMemberStep mrec team) a).membersMatchingTargetSkills.Nodup :=
    fun a ha => foldl_nodup_pres _ (fun s => s.membersMatchingTargetSkills)
      (fun s b => (skillMemberStep_nodup mrec team s b).2) team.memberIds a ha
  have hrolekeep : ∀ (a : TargetAcc),
      (team.memberIds.foldl (roleMemberStep mrec team) a).membersMatchingTargetSkills
        = a.membersMatchingTargetSkills :=
    fun a => foldl_invariant _ (fun s => s.membersMatchingTargetSkills)
      (fun s b => (roleMemberStep_frame' mrec team s b).2.2.2.2.2.1) team.memberIds a
  simp only [teamStep]
  by_cases hst : team.skillTargeted = true <;> by_cases hrt : team.roleTargeted = true
  · rw [if_pos hst, if_pos hrt]
    exact hskillpres _ (by rw [hrolekeep, hcount]; exact hn)
  · rw [if_pos hst, if_neg hrt]
    exact hskillpres _ (by rw [hcount]; exact hn)
  · rw [if_neg hst, if_pos hrt, hrolekeep, hcount]; exact hn
  · rw [if_neg hst, if_neg hrt, hcount]; exact hn

theorem foldl_teamStep_inRole (mrec : List (String × Member)) (teams : List Team)
    (acc : TargetAcc) (x : String) :
    x ∈ (teams.foldl (teamStep mrec) acc).membersInRoleTargetedTeams ↔
      x ∈ acc.membersInRoleTargetedTeams ∨
        ∃ team ∈ teams, team.roleTargeted = true ∧ x ∈ team.memberIds ∧
          (rlookup mrec x).isSome = true := by
  induction teams generalizing acc with
  | nil => simp
  | cons t ts ih =>
    rw [List.foldl_cons, ih, teamStep_inRole, List.exists_mem_cons_iff]
    constructor
    · rintro ((h | h) | h)
      · exact Or.inl h
      · exact Or.inr (Or.inl h)
      · exact Or.inr (Or.inr h)
    · rintro (h | (h | h))
      · exact Or.inl (Or.inl h)
      · exact Or.inl (Or.inr h)
      · exact Or.inr h

theorem foldl_teamStep_match (mrec : List (String × Member)) (teams : List Team)
    (acc : TargetAcc) (x : String) :
    x ∈ (teams.foldl (teamStep mrec) acc).membersMatchingTargetRoles ↔
      x ∈ acc.membersMatchingTargetRoles ∨
        ∃ team ∈ teams, team.roleTargeted = true ∧ x ∈ team.memberIds ∧
          ∃ mem, rlookup mrec x = some mem ∧ mem.roleId ∈ team.targetRoles.getD [] := by
  induction teams generalizing acc with
  | nil => simp
  | cons t ts ih =>
    rw [List.foldl_cons, ih, teamStep_matchRole, List.exists_mem_cons_iff]
    constructor
    · rintro ((h | h) | h)
      · exact Or.inl h
      · exact Or.inr (Or.inl h)
      · exact Or.inr (Or.inr h)
    · rintro (h | (h | h))
      · exact Or.inl (Or.inl h)
      · exact Or.inl (Or.inr h)
      · exact Or.inr h

theorem foldl_teamStep_inSkill (mrec : List (String × Member)) (teams : List Team)
    (acc : TargetAcc) (x : String) :
    x ∈ (teams.foldl (teamStep mrec) acc).membersInSkillTargetedTeams ↔
      x ∈ acc.membersInSkillTargetedTeams ∨
        ∃ team ∈ teams, team.skillTargeted = true ∧ x ∈ team.memberIds ∧
          (rlookup mrec x).isSome = true := by
  induction teams generalizing acc with
  | nil => simp
  | cons t ts ih =>
    rw [List.foldl_cons, ih, teamStep_inSkill, List.exists_mem_cons_iff]
    constructor
    · rintro ((h | h) | h)
      · exact Or.inl h
      · exact Or.inr (Or.inl h)
      · exact Or.inr (Or.inr h)
    · rintro (h | (h | h))
      · exact Or.inl (Or.inl h)
      · exact Or.inl (Or.inr h)
      · exact Or.inr h

theorem foldl_teamStep_matchSkill (mrec : List (String × Member)) (teams : List Team)
    (acc : TargetAcc) (x : String) :
    x ∈ (teams.foldl (teamStep mrec) acc).membersMatchingTargetSkills ↔
      x ∈ acc.membersMatchingTargetSkills ∨
        ∃ team ∈ teams, team.skillTargeted = true ∧ x ∈ team.memberIds ∧
          ∃ mem, rlookup mrec x = some mem ∧
            ∃ sk ∈ mem.skillIds, sk ∈ team.targetSkills.getD [] := by
  induction teams generalizing acc with
  | nil => simp
  | cons t ts ih =>
    rw [List.foldl_cons, ih, teamStep_matchSkill, List.exists_mem_cons_iff]
    constructor
    · rintro ((h | h) | h)
      · exact Or.inl h
      · exact Or.inr (Or.inl h)
      · exact Or.inr (Or.inr h)
    · rintro (h | (h | h))
      · exact Or.inl (Or.inl h)
      · exact Or.inl (Or.inr h)
      · exact Or.inr h

theorem foldl_teamStep_sizeSum (mrec : List (String × Member)) (teams : List Team)
    (acc : TargetAcc) :
    (teams.foldl (teamStep mrec) acc).teamsAtTargetSize +
      (teams.foldl (teamStep mrec) acc).teamsBelowTargetSize +
      (teams.foldl (teamStep mrec) acc).teamsAboveTargetSize =
    acc.teamsAtTargetSize + acc.teamsBelowTargetSize + acc.teamsAboveTargetSize +
      teams.countP (fun t => t.targetSize.isSome) := by
  induction teams generalizing acc with
  | nil => simp
  | cons t ts ih =>
    rw [List.foldl_cons, ih, teamStep_sizeSum, List.countP_cons]
    by_cases h : t.targetSize.isSome = true <;> (simp [h]; try omega)

/-- The accumulator of the team-target loop, as `calculateStatistics`
builds it. -/
def statsAcc (s : AppState) : TargetAcc :=
  (rvalues s.teams).foldl (teamStep s.members) {}

theorem coverage_bounds_aux (nm dn : Nat) (hle : nm ≤ dn) :
    0 ≤ (if 0 < dn then ((nm : ℚ) / dn) * 100 else 0) ∧
    (if 0 < dn then ((nm : ℚ) / dn) * 100 else 0) ≤ 100 := by
  by_cases h : 0 < dn
  · rw [if_pos h]
    constructor
    · positivity
    · have hd : (0 : ℚ) < dn := by exact_mod_cast h
      have h1 : (nm : ℚ) / dn ≤ 1 := (div_le_one hd).mpr (by exact_mod_cast hle)
      calc (nm : ℚ) / dn * 100 ≤ 1 * 100 :=
            mul_le_mul_of_nonneg_right h1 (by norm_num)
        _ = 100 := by norm_num
  · rw [if_neg h]
    norm_num

/-- C5: coverage percentages.  `targetSizeCoverage` is `100·at/(at+below+above)`
when some team defines a target size and `0` otherwise; `targetRoleCoverage`
(resp. skills) is `100·matching/total` over the duplicate-free sets of
members of role-(skill-)targeted teams — characterized below by membership —
when the denominator is positive and `0` otherwise; and all three values lie
between `0` and `100`. -/
theorem coverage_percentages (s : AppState) :
    ((calculateStatistics s).teamsAtTargetSize + (calculateStatistics s).teamsBelowTargetSize +
        (calculateStatistics s).teamsAboveTargetSize
      = (rvalues s.teams).countP (fun t => t.targetSize.isSome)) ∧
    (0 < (rvalues s.teams).countP (fun t => t.targetSize.isSome) →
      (calculateStatistics s).targetSizeCoverage =
        100 * ((calculateStatistics s).teamsAtTargetSize : ℚ) /
          (((calculateStatistics s).teamsAtTargetSize : ℚ) +
            ((calculateStatistics s).teamsBelowTargetSize : ℚ) +
            ((calculateStatistics s).teamsAboveTargetSize : ℚ))) ∧
    ((rvalues s.teams).countP (fun t => t.targetSize.isSome) = 0 →
      (calculateStatistics s).targetSizeCoverage = 0) ∧
    (statsAcc s).membersMatchingTargetRoles.Nodup ∧
    (∀ x, x ∈ (statsAcc s).membersMatchingTargetRoles ↔
      ∃ team ∈ rvalues s.teams, team.roleTargeted = true ∧ x ∈ team.memberIds ∧
        ∃ mem, rlookup s.members x = some mem ∧ mem.roleId ∈ team.targetRoles.getD []) ∧
    (statsAcc s).membersInRoleTargetedTeams.Nodup ∧
    (∀ x, x ∈ (statsAcc s).membersInRoleTargetedTeams ↔
      ∃ team ∈ rvalues s.teams, team.roleTargeted = true ∧ x ∈ team.memberIds ∧
        (rlookup s.members x).isSome = true) ∧
    ((calculateStatistics s).membersMatchingTargetRoles =
      (statsAcc s).membersMatchingTargetRoles.length) ∧
    (0 < (statsAcc s).membersInRoleTargetedTeams.length →
      (calculateStatistics s).targetRoleCoverage =
        100 * ((statsAcc s).membersMatchingTargetRoles.length : ℚ) /
          ((statsAcc s).membersInRoleTargetedTeams.length : ℚ)) ∧
    ((statsAcc s).membersInRoleTargetedTeams.length = 0 →
      (calculateStatistics s).targetRoleCoverage = 0) ∧
    (statsAcc s).membersMatchingTargetSkills.Nodup ∧
    (∀ x, x ∈ (statsAcc s).membersMatchingTargetSkills ↔
      ∃ team ∈ rvalues s.teams, team.skillTargeted = true ∧ x ∈ team.memberIds ∧
        ∃ mem, rlookup s.members x = some mem ∧
          ∃ sk ∈ mem.skillIds, sk ∈ team.targetSkills.getD []) ∧
    (statsAcc s).membersInSkillTargetedTeams.Nodup ∧
    (∀ x, x ∈ (statsAcc s).membersInSkillTargetedTeams ↔
      ∃ team ∈ rvalues s.teams, team.skillTargeted = true ∧ x ∈ team.memberIds ∧
        (rlookup s.members x).isSome = true) ∧
    ((calculateStatistics s).membersMatchingTargetSkills =
      (statsAcc s).membersMatchingTargetSkills.length) ∧
    (0 < (statsAcc s).membersInSkillTargetedTeams.length →
      (calculateStatistics s).targetSkillCoverage =
        100 * ((statsAcc s).membersMatchingTargetSkills.length : ℚ) /
          ((statsAcc s).membersInSkillTargetedTeams.length : ℚ)) ∧
    ((statsAcc s).membersInSkillTargetedTeams.length = 0 →
      (calculateStatistics s).targetSkillCoverage = 0) ∧
    (0 ≤ (calculateStatistics s).targetSizeCoverage ∧
      (calculateStatistics s).targetSizeCoverage ≤ 100) ∧
    (0 ≤ (calculateStatistics s).targetRoleCoverage ∧
      (calculateStatistics s).targetRoleCoverage ≤ 100) ∧
    (0 ≤ (calculateStatistics s).targetSkillCoverage ∧
      (calculateStatistics s).targetSkillCoverage ≤ 100) := by
  have hAt : (calculateStatistics s).teamsAtTargetSize = (statsAcc s).teamsAtTargetSize := rfl
  have hBe : (calculateStatistics s).teamsBelowTargetSize =
    (statsAcc s).teamsBelowTargetSize := rfl
  have hAb : (calculateStatistics s).teamsAboveTargetSize =
    (statsAcc s).teamsAboveTargetSize := rfl
  have hsum := foldl_teamStep_sizeSum s.members (rvalues s.teams) {}
  have hsum0 : (statsAcc s).teamsAtTargetSize + (statsAcc s).teamsBelowTargetSize +
      (statsAcc s).teamsAboveTargetSize =
      (rvalues s.teams).countP (fun t => t.targetSize.isSome) := by
    simpa [statsAcc] using hsum
  have hMR : ∀ x, x ∈ (statsAcc s).membersMatchingTargetRoles ↔
      ∃ team ∈ rvalues s.teams, team.roleTargeted = true ∧ x ∈ team.memberIds ∧
        ∃ mem, rlookup s.members x = some mem ∧ mem.roleId ∈ team.targetRoles.getD [] := by
    intro x
    have h := foldl_teamStep_match s.members (rvalues s.teams) {} x
    simpa [statsAcc] using h
  have hIR : ∀ x, x ∈ (statsAcc s).membersInRoleTargetedTeams ↔
      ∃ team ∈ rvalues s.teams, team.roleTargeted = true ∧ x ∈ team.memberIds ∧
        (rlookup s.members x).isSome = true := by
    intro x
    have h := foldl_teamStep_inRole s.members (rvalues s.teams) {} x
    simpa [statsAcc] using h
  have hMS : ∀ x, x ∈ (statsAcc s).membersMatchingTargetSkills ↔
      ∃ team ∈ rvalues s.teams, team.skillTargeted = true ∧ x ∈ team.memberIds ∧
        ∃ mem, rlookup s.members x = some mem ∧
          ∃ sk ∈ mem.skillIds, sk ∈ team.targetSkills.getD [] := by
    intro x
    have h := foldl_teamStep_matchSkill s.members (rvalues s.teams) {} x
    simpa [statsAcc] using h
  have hIS : ∀ x, x ∈ (statsAcc s).membersInSkillTargetedTeams ↔
      ∃ team ∈ rvalues s.teams, team.skillTargeted = true ∧ x ∈ team.memberIds ∧
        (rlookup s.members x).isSome = true := by
    intro x
    have h := foldl_teamStep_inSkill s.members (rvalues s.teams) {} x
    simpa [statsAcc] using h
  have hndMR : (statsAcc s).membersMatchingTargetRoles.Nodup :=
    foldl_nodup_pres _ (fun a => a.membersMatchingTargetRoles)
      (fun a t => teamStep_nodup_matchRole s.members a t) (rvalues s.teams) {}
      List.nodup_nil
  have hndIR : (statsAcc s).membersInRoleTargetedTeams.Nodup :=
    foldl_nodup_pres _ (fun a => a.membersInRoleTargetedTeams)
      (fun a t => teamStep_nodup_inRole s.members a t) (rvalues s.teams) {}
      List.nodup_nil
  have hndMS : (statsAcc s).membersMatchingTargetSkills.Nodup :=
    foldl_nodup_pres _ (fun a => a.membersMatchingTargetSkills)
      (fun a t => teamStep_nodup_matchSkill s.members a t) (rvalues s.teams) {}
      List.nodup_nil
  have hndIS : (statsAcc s).membersInSkillTargetedTeams.Nodup :=
    foldl_nodup_pres _ (fun a => a.membersInSkillTargetedTeams)
      (fun a t => teamStep_nodup_inSkill s.members a t) (rvalues s.teams) {}
      List.nodup_nil
  have hsubR : (statsAcc s).membersMatchingTargetRoles ⊆
      (statsAcc s).membersInRoleTargetedTeams := by
    intro x hx
    rcases (hMR x).mp hx with ⟨team, hteam, hrt, hmem, mem, hlk, -⟩
    exact (hIR x).mpr ⟨team, hteam, hrt, hmem, by simp [hlk]⟩
  have hsubS : (statsAcc s).membersMatchingTargetSkills ⊆
      (statsAcc s).membersInSkillTargetedTeams := by
    intro x hx
    rcases (hMS x).mp hx with ⟨team, hteam, hst, hmem, mem, hlk, -⟩
    exact (hIS x).mpr ⟨team, hteam, hst, hmem, by simp [hlk]⟩
  have hleR : (statsAcc s).membersMatchingTargetRoles.length ≤
      (statsAcc s).membersInRoleTargetedTeams.length :=
    (List.subperm_of_subset hndMR hsubR).length_le
  have hleS : (statsAcc s).membersMatchingTargetSkills.length ≤
      (statsAcc s).membersInSkillTargetedTeams.length :=
    (List.subperm_of_subset hndMS hsubS).length_le
  have hCovSize : (calculateStatistics s).targetSizeCoverage =
      (if 0 < (statsAcc s).teamsAtTargetSize + (statsAcc s).teamsBelowTargetSize +
          (statsAcc s).teamsAboveTargetSize then
        (((statsAcc s).teamsAtTargetSize : ℚ) /
          (((statsAcc s).teamsAtTargetSize + (statsAcc s).teamsBelowTargetSize +
            (statsAcc s).teamsAboveTargetSize : Nat) : ℚ)) * 100
      else 0) := rfl
  have hCovRole : (calculateStatistics s).targetRoleCoverage =
      (if 0 < (statsAcc s).membersInRoleTargetedTeams.length then
        (((statsAcc s).membersMatchingTargetRoles.length : ℚ) /
          ((statsAcc s).membersInRoleTargetedTeams.length : ℚ)) * 100
      else 0) := rfl
  have hCovSkill : (calculateStatistics s).targetSkillCoverage =
      (if 0 < (statsAcc s).membersInSkillTargetedTeams.length then
        (((statsAcc s).membersMatchingTargetSkills.length : ℚ) /
          ((statsAcc s).membersInSkillTargetedTeams.length : ℚ)) * 100
      else 0) := rfl
  refine ⟨by rw [hAt, hBe, hAb]; exact hsum0, ?_, ?_, hndMR, hMR, hndIR, hIR, rfl, ?_, ?_,
    hndMS, hMS, hndIS, hIS, rfl, ?_, ?_, ?_, ?_, ?_⟩
  · intro hpos
    have hp : 0 < (statsAcc s).teamsAtTargetSize + (statsAcc s).teamsBelowTargetSize +
        (statsAcc s).teamsAboveTargetSize := by rw [hsum0]; exact hpos
    rw [hCovSize, if_pos hp, hAt, hBe, hAb]
    push_cast
    ring
  · intro hzero
    have hp : ¬ (0 < (statsAcc s).teamsAtTargetSize + (statsAcc s).teamsBelowTargetSize +
        (statsAcc s).teamsAboveTargetSize) := by rw [hsum0, hzero]; simp
    rw [hCovSize, if_neg hp]
  · intro hpos
    rw [hCovRole, if_pos hpos]
    ring
  · intro hzero
    have hp : ¬ (0 < (statsAcc s).membersInRoleTargetedTeams.length) := by
      rw [hzero]; simp
    rw [hCovRole, if_neg hp]
  · intro hpos
    rw [hCovSkill, if_pos hpos]
    ring
  · intro hzero
    have hp : ¬ (0 < (statsAcc s).membersInSkillTargetedTeams.length) := by
      rw [hzero]; simp
    rw [hCovSkill, if_neg hp]
  · rw [hCovSize]
    have := coverage_bounds_aux (statsAcc s).teamsAtTargetSize
      ((statsAcc s).teamsAtTargetSize + (statsAcc s).teamsBelowTargetSize +
        (statsAcc s).teamsAboveTargetSize) (by omega)
    exact this
  · rw [hCovRole]
    exact coverage_bounds_aux _ _ hleR
  · rw [hCovSkill]
    exact coverage_bounds_aux _ _ hleS

theorem coverage_percentages_witness :
    (calculateStatistics initialState).targetSizeCoverage = 0 :=
  (coverage_percentages initialState).2.2.1 (by decide)

/-! ## C8: purity, totality, determinism -/

/-- C8: the search, filter, pagination and statistics subsystems are pure
total functions of their inputs (modelled as total Lean functions): runs on
equal inputs give equal outputs, and `calculateStatistics` succeeds on every
state, treating missing `roles`/`skills` collections exactly as empty ones
(so `totalRoles`/`totalSkills` are then `0`). -/
theorem subsystems_pure_deterministic :
    (∀ (s : AppState), calculateStatistics { s with roles := none, skills := none }
        = calculateStatistics { s with roles := some [], skills := some [] }) ∧
    (∀ (s : AppState),
      (calculateStatistics { s with roles := none, skills := none }).totalRoles = 0 ∧
      (calculateStatistics { s with roles := none, skills := none }).totalSkills = 0) ∧
    (∀ (α : Type) (items₁ items₂ : List α) (t₁ t₂ : String) (c₁ c₂ : SearchConfig α),
      items₁ = items₂ → t₁ = t₂ → c₁ = c₂ →
        useSearch items₁ t₁ c₁ = useSearch items₂ t₂ c₂) ∧
    (∀ (α : Type) (i₁ i₂ : List α) (d₁ d₂ : List (FilterDefinition α))
        (a₁ a₂ : List ActiveFilter),
      i₁ = i₂ → d₁ = d₂ → a₁ = a₂ → filteredItems i₁ d₁ a₁ = filteredItems i₂ d₂ a₂) ∧
    (∀ (α : Type) (i₁ i₂ : List α) (p₁ p₂ r₁ r₂ : Nat),
      i₁ = i₂ → p₁ = p₂ → r₁ = r₂ → paginatedItems i₁ p₁ r₁ = paginatedItems i₂ p₂ r₂) ∧
    (∀ (s₁ s₂ : AppState), s₁ = s₂ → calculateStatistics s₁ = calculateStatistics s₂) := by
  refine ⟨fun s => rfl, fun s => ⟨rfl, rfl⟩, ?_, ?_, ?_, ?_⟩
  · intro α i₁ i₂ t₁ t₂ c₁ c₂ hi ht hc
    subst hi; subst ht; subst hc; rfl
  · intro α i₁ i₂ d₁ d₂ a₁ a₂ hi hd ha
    subst hi; subst hd; subst ha; rfl
  · intro α i₁ i₂ p₁ p₂ r₁ r₂ hi hp hr
    subst hi; subst hp; subst hr; rfl
  · intro s₁ s₂ hs
    subst hs; rfl

theorem subsystems_pure_deterministic_witness :
    useSearch ["a"] "x" ({ searchableFields := [] } : SearchConfig String)
      = useSearch ["a"] "x" ({ searchableFields := [] } : SearchConfig String) :=
  subsystems_pure_deterministic.2.2.1 String ["a"] ["a"] "x" "x"
    { searchableFields := [] } { searchableFields := [] } rfl rfl rfl

end TeamPlus
